import Mathlib

/-!
Shallow embedding of the luna_chat pipeline core:
  * `app/services/llm_client.py` — `LLMClient._parse_llm_content` and the field
    coercion of `LLMClient.generate_reply`,
  * `app/images/gate.py` — the image-request gate,
  * `app/images/engine.py` — tag normalisation, quality stripping, prompt assembly,
  * `lora_mapping.py` — the LoRA selector.

Strings are modelled as Lean `String`/`List Char`; Python `str` helpers
(`strip`, `lower`, `replace`, `split`, substring `in`) are reimplemented over
`List Char` restricted to ASCII whitespace/case (all catalog data, trigger
words and quality tags in the repository are ASCII).  Python floats are
modelled as exact rationals: every weight in the catalog is a two-decimal
literal and every comparison the code performs on them is exact at `Float`
precision, so the orderings agree.  `json.loads` is modelled by a sound
subset decoder `json_loadsL` (objects, arrays, strings with the simple
escapes, integers without leading zeros, `true`/`false`/`null`); whenever the
model decoder succeeds, CPython's decoder succeeds with the same value.
-/

/-! ### Python string helpers -/

/-- ASCII whitespace as recognised by `str.strip` / `str.split` / regex `\s`. -/
def pyIsSpace (c : Char) : Bool :=
  c == ' ' || c == '\t' || c == '\n' || c == '\r' || c == '\x0b' || c == '\x0c'

/-- ASCII `str.lower` on one character. -/
def pyLowerChar (c : Char) : Char :=
  if 'A' ≤ c && c ≤ 'Z' then Char.ofNat (c.toNat + 32) else c

def pyLowerL (l : List Char) : List Char := l.map pyLowerChar

def pyLowerS (s : String) : String := ⟨pyLowerL s.data⟩

def trimLeft (l : List Char) : List Char := l.dropWhile pyIsSpace

def trimRight (l : List Char) : List Char := (l.reverse.dropWhile pyIsSpace).reverse

/-- Python `str.strip()`. -/
def pyStripL (l : List Char) : List Char := trimRight (trimLeft l)

def pyStripS (s : String) : String := ⟨pyStripL s.data⟩

/-- `startsWithL p l` holds when `p` is a prefix of `l`. -/
def startsWithL : List Char → List Char → Bool
  | [], _ => true
  | _ :: _, [] => false
  | p :: ps, c :: cs => p == c && startsWithL ps cs

/-- Python substring test `pat in hay` (contiguous substring). -/
def substrIn (pat : List Char) : List Char → Bool
  | [] => startsWithL pat []
  | c :: rest => startsWithL pat (c :: rest) || substrIn pat rest

/-- Number of positions of `hay` at which `pat` occurs (overlaps counted). -/
def matchCount (pat : List Char) : List Char → Nat
  | [] => if pat = [] then 1 else 0
  | c :: rest => (if startsWithL pat (c :: rest) then 1 else 0) + matchCount pat rest

/-- Python `sep.join(parts)`. -/
def pyJoin (sep : String) : List String → String
  | [] => ""
  | [x] => x
  | x :: y :: xs => x ++ sep ++ pyJoin sep (y :: xs)

/-- Fuel-indexed body of `pyReplace` (each step consumes at least one
character, so `length + 1` fuel never runs out). -/
def pyReplaceGo (old new : List Char) : Nat → List Char → List Char
  | 0, l => l
  | _ + 1, [] => []
  | fuel + 1, c :: rest =>
    if !old.isEmpty && startsWithL old (c :: rest) then
      new ++ pyReplaceGo old new fuel ((c :: rest).drop old.length)
    else
      c :: pyReplaceGo old new fuel rest

/-- Python `s.replace(old, new)`: all non-overlapping occurrences, scanning left
to right, never rescanning the replacement text.  (Never called with `old = []`
by the embedded code; in that unused case it is the identity.) -/
def pyReplace (old new l : List Char) : List Char := pyReplaceGo old new (l.length + 1) l

/-- A stable insertion sort over a Boolean `le`.  CPython's `sorted` is a
stable sort; for a total transitive `le` the stable sorted arrangement is
unique, so this models it exactly (structural recursion keeps it computable
by the kernel). -/
def orderedInsertB (le : α → α → Bool) (a : α) : List α → List α
  | [] => [a]
  | b :: l => if le a b then a :: b :: l else b :: orderedInsertB le a l

def insertionSortB (le : α → α → Bool) : List α → List α
  | [] => []
  | a :: l => orderedInsertB le a (insertionSortB le l)

/-- Python `s.split(sep)[0]`: the prefix before the first occurrence of `sep`,
or all of `s` when `sep` does not occur. -/
def takeBeforeFirst (sep : List Char) : List Char → List Char
  | [] => []
  | c :: rest =>
    if startsWithL sep (c :: rest) then [] else c :: takeBeforeFirst sep rest

/-- First index `i` of `hay` with `pat` a prefix of `hay.drop i`. -/
def findSubIdx (pat hay : List Char) : Option Nat :=
  (List.range (hay.length + 1)).find? (fun i => startsWithL pat (hay.drop i))

/-- Python `s.find(c)` for a single character (`none` for Python's `-1`). -/
def pyFind (l : List Char) (c : Char) : Option Nat := l.findIdx? (· == c)

/-- Python `s.rfind(c)` for a single character. -/
def pyRFind (l : List Char) (c : Char) : Option Nat :=
  match l.reverse.findIdx? (· == c) with
  | some i => some (l.length - 1 - i)
  | none => none

def pySplitWsGo : Nat → List Char → List (List Char)
  | 0, _ => []
  | fuel + 1, l =>
    let l₁ := l.dropWhile pyIsSpace
    match l₁ with
    | [] => []
    | _ :: _ =>
      let w := l₁.takeWhile (fun c => !pyIsSpace c)
      w :: pySplitWsGo fuel (l₁.drop w.length)

/-- Python `s.split()` (split on whitespace runs, dropping empties). -/
def pySplitWs (l : List Char) : List (List Char) := pySplitWsGo (l.length + 1) l

/-! ### JSON values and a sound subset of `json.loads` -/

inductive JVal where
  | null
  | bool (b : Bool)
  | num (n : Int)
  | str (s : String)
  | arr (xs : List JVal)
  | obj (kvs : List (String × JVal))

/-- Whitespace accepted by the JSON grammar. -/
def jIsWs (c : Char) : Bool := c == ' ' || c == '\t' || c == '\n' || c == '\r'

def jSkipWs (l : List Char) : List Char := l.dropWhile jIsWs

def digitsToNat (ds : List Char) : Nat :=
  ds.foldl (fun acc c => 10 * acc + (c.toNat - '0'.toNat)) 0

/-- JSON number (integers only; inputs with `.`/`e`/`E` or leading zeros are
rejected, a strict subset of what CPython accepts). -/
def parseJNum (l : List Char) : Option (Int × List Char) :=
  let (neg, l₁) := match l with
    | '-' :: t => (true, t)
    | _ => (false, l)
  let ds := l₁.takeWhile (·.isDigit)
  let rest := l₁.dropWhile (·.isDigit)
  if ds = [] then none
  else if 2 ≤ ds.length && ds.headI = '0' then none
  else
    match rest with
    | c :: _ =>
      if c == '.' || c == 'e' || c == 'E' then none
      else some (if neg then -(Int.ofNat (digitsToNat ds)) else Int.ofNat (digitsToNat ds), rest)
    | [] => some (if neg then -(Int.ofNat (digitsToNat ds)) else Int.ofNat (digitsToNat ds), [])

/-- JSON string body after the opening quote; handles the one-character
escapes, rejects `\u` and control characters (a sound subset of CPython). -/
def parseJStr : Nat → List Char → Option (List Char × List Char)
  | 0, _ => none
  | _ + 1, [] => none
  | fuel + 1, c :: rest =>
    if c == '"' then some ([], rest)
    else if c == '\\' then
      match rest with
      | [] => none
      | e :: rest' =>
        let dec : Option Char :=
          if e == '"' then some '"'
          else if e == '\\' then some '\\'
          else if e == '/' then some '/'
          else if e == 'n' then some '\n'
          else if e == 't' then some '\t'
          else if e == 'r' then some '\r'
          else if e == 'b' then some (Char.ofNat 8)
          else if e == 'f' then some (Char.ofNat 12)
          else none
        match dec with
        | none => none
        | some d =>
          match parseJStr fuel rest' with
          | some (s, r) => some (d :: s, r)
          | none => none
    else if c.toNat < 32 then none
    else
      match parseJStr fuel rest with
      | some (s, r) => some (c :: s, r)
      | none => none

mutual

def parseJVal : Nat → List Char → Option (JVal × List Char)
  | 0, _ => none
  | fuel + 1, l =>
    match jSkipWs l with
    | [] => none
    | c :: rest =>
      if c == '"' then
        match parseJStr (fuel + 1) rest with
        | some (s, r) => some (JVal.str ⟨s⟩, r)
        | none => none
      else if c == '\x7b' then
        match jSkipWs rest with
        | '\x7d' :: r => some (JVal.obj [], r)
        | other =>
          match parseJObjItems fuel other with
          | some (kvs, r) => some (JVal.obj kvs, r)
          | none => none
      else if c == '[' then
        match jSkipWs rest with
        | ']' :: r => some (JVal.arr [], r)
        | other =>
          match parseJArrItems fuel other with
          | some (xs, r) => some (JVal.arr xs, r)
          | none => none
      else if c == 't' then
        if startsWithL [ 'r', 'u', 'e' ] rest then some (JVal.bool true, rest.drop 3) else none
      else if c == 'f' then
        if startsWithL [ 'a', 'l', 's', 'e' ] rest then some (JVal.bool false, rest.drop 4) else none
      else if c == 'n' then
        if startsWithL [ 'u', 'l', 'l' ] rest then some (JVal.null, rest.drop 3) else none
      else
        match parseJNum (c :: rest) with
        | some (n, r) => some (JVal.num n, r)
        | none => none

def parseJArrItems : Nat → List Char → Option (List JVal × List Char)
  | 0, _ => none
  | fuel + 1, l =>
    match parseJVal fuel l with
    | none => none
    | some (v, r) =>
      match jSkipWs r with
      | ',' :: r' =>
        match parseJArrItems fuel r' with
        | some (xs, r'') => some (v :: xs, r'')
        | none => none
      | ']' :: r' => some ([v], r')
      | _ => none

def parseJObjItems : Nat → List Char → Option (List (String × JVal) × List Char)
  | 0, _ => none
  | fuel + 1, l =>
    match jSkipWs l with
    | '"' :: r =>
      match parseJStr (fuel + 1) r with
      | none => none
      | some (k, r₁) =>
        match jSkipWs r₁ with
        | ':' :: r₂ =>
          match parseJVal fuel r₂ with
          | none => none
          | some (v, r₃) =>
            match jSkipWs r₃ with
            | ',' :: r₄ =>
              match parseJObjItems fuel r₄ with
              | some (kvs, r₅) => some ((⟨k⟩, v) :: kvs, r₅)
              | none => none
            | '\x7d' :: r₄ => some ([(⟨k⟩, v)], r₄)
            | _ => none
        | _ => none
    | _ => none

end

/-- Model of `json.loads` on a character list: decode one value, allow only
trailing whitespace. -/
def json_loadsL (l : List Char) : Option JVal :=
  match parseJVal (2 * l.length + 8) l with
  | some (v, rest) => if jSkipWs rest = [] then some v else none
  | none => none

def json_loads (s : String) : Option JVal := json_loadsL s.data

/-- Python `dict.get` on the decoded object: with duplicate keys the later
entry wins, as in a Python dict built by the JSON decoder. -/
def jget (kvs : List (String × JVal)) (k : String) : Option JVal :=
  (kvs.reverse.find? (fun p => p.1 == k)).map (·.2)

/-- Python truthiness of a decoded JSON value. -/
def pyTruthy : JVal → Bool
  | JVal.null => false
  | JVal.bool b => b
  | JVal.num n => n != 0
  | JVal.str s => s != ""
  | JVal.arr xs => !xs.isEmpty
  | JVal.obj kvs => !kvs.isEmpty

mutual

/-- Python `str(v)` of a decoded JSON value.  The `arr`/`obj` renderings are a
simplified `repr` (correct for quote-free ASCII content); no theorem below
depends on those two branches. -/
def pyStr : JVal → String
  | JVal.null => "None"
  | JVal.bool true => "True"
  | JVal.bool false => "False"
  | JVal.num n => toString n
  | JVal.str s => s
  | JVal.arr xs => "[" ++ pyJoin ", " (pyStrElems xs) ++ "]"
  | JVal.obj kvs => "\x7b" ++ pyJoin ", " (pyStrPairs kvs) ++ "\x7d"

def pyStrElems : List JVal → List String
  | [] => []
  | v :: vs => ("'" ++ pyStr v ++ "'") :: pyStrElems vs

def pyStrPairs : List (String × JVal) → List String
  | [] => []
  | (k, v) :: rest => ("'" ++ k ++ "': '" ++ pyStr v ++ "'") :: pyStrPairs rest

end

/-! ### `LLMClient._parse_llm_content` and the coercion in `generate_reply` -/

structure LLMReply where
  reply_it : String
  tags_en : List String
  visual_en : String
  follow_up_action : Option String
deriving DecidableEq, Repr

/-- Which of the four parse strategies produced the result (the spec's
`parse_confidence`: Strict / RecoveredJson / RecoveredLabeled / Unstructured). -/
inductive ParseStage where
  | strict
  | recoveredJson
  | recoveredLabeled
  | unstructured
deriving DecidableEq, Repr

def tagsLabel : List Char := ("tags_en:").data

def visualLabel : List Char := ("visual_en:").data

def followLabel : List Char := ("follow_up_action:").data

def wsRunLen (l : List Char) : Nat := (l.takeWhile pyIsSpace).length

/-- Stage 2's brace extraction: `content[start:end+1]` for
`start = content.find("{")`, `end = content.rfind("}")`, provided both exist
and `end > start`. -/
def braceSnippet (l : List Char) : Option (List Char) :=
  match pyFind l '\x7b', pyRFind l '\x7d' with
  | some s, some e => if s < e then some ((l.drop s).take (e + 1 - s)) else none
  | _, _ => none

def stage2 (l : List Char) : Option JVal :=
  match braceSnippet l with
  | some sn => json_loadsL sn
  | none => none

/-- Stage 3 `reply_it`: text before the first case-insensitive `tags_en:`
(whole text if absent), then for each of `visual_en:`/`follow_up_action:` in
order, if the label occurs case-insensitively, keep the part before its first
case-SENSITIVE occurrence (mirroring the source's asymmetric check/split). -/
def stage3ReplyIt (content lc : List Char) : List Char :=
  let r0 := match findSubIdx tagsLabel lc with
    | some i => pyStripL (content.take i)
    | none => pyStripL content
  let r1 := if substrIn visualLabel (pyLowerL r0) then pyStripL (takeBeforeFirst visualLabel r0) else r0
  if substrIn followLabel (pyLowerL r1) then pyStripL (takeBeforeFirst followLabel r1) else r1

/-- Regex `tags_en:\s*(\[.*?\])` step at one candidate position: whitespace
run, an opening bracket, then the lazily shortest group ending at the first
`]`. -/
def tagsGroupAt (content : List Char) (i : Nat) : Option (List Char) :=
  let after := content.drop (i + tagsLabel.length)
  let afterWs := after.drop (wsRunLen after)
  match afterWs with
  | '[' :: rest =>
    match pyFind rest ']' with
    | some k => some (afterWs.take (k + 2))
    | none => none
  | _ => none

/-- Leftmost full match of `tags_en:\s*(\[.*?\])` (case-insensitive): try each
occurrence of the label in order until the rest of the pattern matches. -/
def findTagsGroup (content lc : List Char) : Option (List Char) :=
  ((List.range (lc.length + 1)).filter (fun i => startsWithL tagsLabel (lc.drop i))).findSome?
    (tagsGroupAt content)

/-- Lookahead `(?=\s*follow_up_action:|$)` at position `i`. -/
def wsThenFollowAt (lc : List Char) (i : Nat) : Bool :=
  let rest := lc.drop i
  startsWithL followLabel (rest.drop (wsRunLen rest))

/-- Regex `visual_en:\s*(.*?)(?=\s*follow_up_action:|$)` (DOTALL, case-
insensitive), then `.strip()` of the group.  The stripped value is the text
after the first `visual_en:` up to the first position where the lookahead
matches (end of input otherwise). -/
def stage3Visual (content lc : List Char) : List Char :=
  match findSubIdx visualLabel lc with
  | none => []
  | some i =>
    let p0 := i + visualLabel.length
    let e := match (List.range (lc.length + 1 - p0)).find? (fun d => wsThenFollowAt lc (p0 + d)) with
      | some d => p0 + d
      | none => lc.length
    pyStripL ((content.take e).drop p0)

/-- ASCII model of regex `\w`. -/
def isWordChar (c : Char) : Bool := c.isAlpha || c.isDigit || c == '_'

def followUpAt (content : List Char) (i : Nat) : Option (List Char) :=
  let after := content.drop (i + followLabel.length)
  let afterWs := after.drop (wsRunLen after)
  match afterWs with
  | c :: _ => if isWordChar c then some (afterWs.takeWhile isWordChar) else none
  | [] => none

/-- Regex `follow_up_action:\s*(\w+)` (case-insensitive), leftmost full match. -/
def stage3FollowUp (content lc : List Char) : Option (List Char) :=
  ((List.range (lc.length + 1)).filter (fun i => startsWithL followLabel (lc.drop i))).findSome?
    (followUpAt content)

/-- Stage 3 of `_parse_llm_content`: regex recovery from dirty text.  Returns
`none` both when the extracted `tags_en`/`visual_en` are empty (the source's
`if tags_en or visual_en:` guard fails) and when `json.loads` of the bracket
group raises (swallowed by the stage's `except Exception`). -/
def stage3 (content : List Char) : Option JVal :=
  let lc := pyLowerL content
  let reply_it := stage3ReplyIt content lc
  let tagsVal : Option JVal :=
    match findTagsGroup content lc with
    | some g => match json_loadsL g with
      | some v => some v
      | none => none
    | none => some (JVal.arr [])
  match tagsVal with
  | none => none
  | some tv =>
    let visual := stage3Visual content lc
    let follow := stage3FollowUp content lc
    if pyTruthy tv || !visual.isEmpty then
      some (JVal.obj [("reply_it", JVal.str ⟨reply_it⟩), ("tags_en", tv),
        ("visual_en", JVal.str ⟨visual⟩),
        ("follow_up_action", match follow with
          | some w => JVal.str ⟨pyStripL w⟩
          | none => JVal.null)])
    else none

/-- Stage 4, the terminal fallback: the whole stripped text, cut before a
case-sensitive `tags_en:` if present, with empty tags and visual. -/
def stage4 (content : List Char) : JVal :=
  JVal.obj [("reply_it", JVal.str ⟨pyStripL (takeBeforeFirst tagsLabel (pyStripL content))⟩),
    ("tags_en", JVal.arr []), ("visual_en", JVal.str ""), ("follow_up_action", JVal.null)]

/-- `LLMClient._parse_llm_content`, with the stage that produced the value. -/
def parse_llm_content_staged (content : String) : ParseStage × JVal :=
  match json_loadsL content.data with
  | some v => (ParseStage.strict, v)
  | none =>
    match stage2 content.data with
    | some v => (ParseStage.recoveredJson, v)
    | none =>
      match stage3 content.data with
      | some v => (ParseStage.recoveredLabeled, v)
      | none => (ParseStage.unstructured, stage4 content.data)

def parse_llm_content (content : String) : JVal := (parse_llm_content_staged content).2

/-- The list comprehension `[str(t) for t in tags_raw if str(t).strip()]`
(or the singleton fallback when `tags_raw` is not a list). -/
def coerceTags : JVal → List String
  | JVal.arr xs => (xs.map pyStr).filter (fun s => pyStripS s != "")
  | other => if pyStripS (pyStr other) != "" then [pyStr other] else []

/-- `reply_it = obj.get("reply_it") or ""` (still a JSON value; a truthy
non-string here makes the pydantic constructor raise). -/
def coerceReplyIt (kvs : List (String × JVal)) : JVal :=
  if pyTruthy ((jget kvs "reply_it").getD JVal.null) then (jget kvs "reply_it").getD JVal.null
  else JVal.str ""

/-- `tags_raw = obj.get("tags_en") or []` followed by the comprehension. -/
def coerceTagsOf (kvs : List (String × JVal)) : List String :=
  coerceTags (if pyTruthy ((jget kvs "tags_en").getD JVal.null)
    then (jget kvs "tags_en").getD JVal.null else JVal.arr [])

/-- `visual_en = str(obj.get("visual_en") or "")`. -/
def coerceVisualOf (kvs : List (String × JVal)) : String :=
  pyStr (if pyTruthy ((jget kvs "visual_en").getD JVal.null)
    then (jget kvs "visual_en").getD JVal.null else JVal.str "")

/-- `follow_up_action = str(...) if obj.get("follow_up_action") is not None else None`. -/
def coerceFollowOf (kvs : List (String × JVal)) : Option String :=
  match (jget kvs "follow_up_action").getD JVal.null with
  | JVal.null => none
  | x => some (pyStr x)

/-- The field coercion of `generate_reply` after `_parse_llm_content`.  A
non-dict decode makes `obj.get` raise `AttributeError`; a truthy non-string
`reply_it` makes the pydantic constructor raise a validation error.  Both are
modelled as `Except.error`. -/
def coerce_reply (obj : JVal) : Except String LLMReply :=
  match obj with
  | JVal.obj kvs =>
    match coerceReplyIt kvs with
    | JVal.str reply_it =>
      Except.ok ⟨reply_it, coerceTagsOf kvs, coerceVisualOf kvs, coerceFollowOf kvs⟩
    | _ => Except.error "ValidationError"
  | _ => Except.error "AttributeError"

/-- `generate_reply` restricted to its pure parse-and-coerce part (the HTTP
transport around it is out of scope). -/
def generate_reply_pipeline (content : String) : Except String LLMReply :=
  coerce_reply (parse_llm_content content)

/-! ### `app/images/gate.py` -/

/-- Request trigger words looked for in the user's message. -/
def USER_TRIGGER_WORDS : List String :=
  ["immagine", "immagini", "foto", "fotografia", "picture", "image", "pic", "photo",
   "scatta", "mostrami", "fammi vedere", "mandami", "mandane"]

/-- Promise phrases looked for in the character's reply. -/
def CHARACTER_PROMISE_WORDS : List String :=
  ["te la mando", "te la invio", "ti mando una foto", "ti mando la foto",
   "ecco una foto", "te la mostro", "guarda questa", "ecco a te", "ecco per te", "ti invio"]

structure ImageDecision where
  will_generate : Bool
  reason : String
deriving DecidableEq, Repr

def _user_asks_for_image (text : String) : Bool :=
  if text = "" then false
  else USER_TRIGGER_WORDS.any (fun word => substrIn word.data (pyLowerS text).data)

def _character_promises_image (text : String) : Bool :=
  if text = "" then false
  else CHARACTER_PROMISE_WORDS.any (fun phrase => substrIn phrase.data (pyLowerS text).data)

def _followup_requests_image (reply : LLMReply) : Bool :=
  match reply.follow_up_action with
  | none => false
  | some f => if f = "" then false else pyLowerS (pyStripS f) == "request_image"

/-- `decide_image_request`: the V1 any-one-signal policy hard-coded in
`app/images/gate.py`. -/
def decide_image_request (user_text : String) (reply : LLMReply) : ImageDecision :=
  let is_user_request := _user_asks_for_image user_text
  let is_character_promise := _character_promises_image reply.reply_it
  let is_followup_request := _followup_requests_image reply
  if is_user_request then ⟨true, "user_request"⟩
  else if is_character_promise then ⟨true, "character_promise"⟩
  else if is_followup_request then ⟨true, "follow_up_action"⟩
  else ⟨false, "no_trigger"⟩

/-- Modelled from the spec: the VisualRichness signal (§4.3): the reply's
`visual_description` is non-empty and the tag count meets a configured
minimum.  No gate revision under `src/` computes this signal. -/
def visual_richness (minTags : Nat) (reply : LLMReply) : Bool :=
  reply.visual_en != "" && minTags ≤ reply.tags_en.length

/-- Modelled from the spec: the quorum voting mode of §4.3.  The repository's
`src/app/images/gate.py` hard-codes only the any-one-signal V1 policy; the
quorum variant is a superseded gate revision absent from `src/`.  Per the
spec, generation triggers exactly when at least `threshold` of
\x7bUserRequest, CharacterPromise, VisualRichness\x7d are simultaneously true, and
the reported reason follows the fixed priority UserRequest >
CharacterPromise > FollowUpSignal > VisualRichness > NoTrigger. -/
def decide_image_request_quorum (threshold minTags : Nat) (user_text : String)
    (reply : LLMReply) : ImageDecision :=
  let u := _user_asks_for_image user_text
  let p := _character_promises_image reply.reply_it
  let f := _followup_requests_image reply
  let v := visual_richness minTags reply
  let count := (if u then 1 else 0) + (if p then 1 else 0) + (if v then 1 else 0)
  if threshold ≤ count then
    ⟨true, if u then "user_request" else if p then "character_promise"
      else if f then "follow_up_action" else if v then "visual_richness" else "no_trigger"⟩
  else ⟨false, "no_trigger"⟩

/-! ### `app/images/engine.py` -/

def QUALITY_TAGS : List String :=
  ["score_9", "score_8_up", "score_7_up", "score_6_up", "score_5_up", "score_4_up",
   "masterpiece", "photorealistic", "award-winning photo"]

def QUALITY_CHAIN : String := pyJoin ", " QUALITY_TAGS

/-- The `while ", ," in text:` cleanup loop of `_strip_quality_from_base`;
each matching iteration shortens the text, so `length + 1` fuel is exact. -/
def collapseCommaRuns : Nat → List Char → List Char
  | 0, t => t
  | fuel + 1, t =>
    if substrIn (", ,").data t then collapseCommaRuns fuel (pyReplace (", ,").data (",").data t)
    else t

/-- `ImageEngine._strip_quality_from_base`. -/
def _strip_quality_from_base (base : String) : String :=
  if base = "" then ""
  else
    let text := QUALITY_TAGS.foldl (fun t qt =>
      pyReplace qt.data [] (pyReplace (',' :: qt.data) [] (pyReplace (qt.data ++ [',']) [] t)))
      base.data
    let text := collapseCommaRuns (text.length + 1) text
    ⟨(pyJoin " " ((pySplitWs (pyReplace (" ,").data (",").data text)).map fun w => (⟨w⟩ : String))).data⟩

/-- `ImageEngine._normalize_tags`, with the `seen` set of lower-cased keys
made explicit. -/
def normalizeGo (seen : List String) : List String → List String
  | [] => []
  | t :: rest =>
    if t = "" then normalizeGo seen rest
    else if pyStripS t = "" then normalizeGo seen rest
    else if pyLowerS (pyStripS t) ∈ seen then normalizeGo seen rest
    else pyStripS t :: normalizeGo (pyLowerS (pyStripS t) :: seen) rest

def _normalize_tags (tags : List String) : List String := normalizeGo [] tags

/-- The positive-prompt assembly of `ImageEngine.build_prompts`.  The LoRA
tokens come from `_collect_lora_tokens`, which delegates to configuration and
the external adapter and returns `[]` on any failure; they are therefore an
explicit argument here. -/
def build_positive (base_prompt : String) (reply : LLMReply) (lora_tokens : List String) : String :=
  let base_clean := _strip_quality_from_base base_prompt
  let tags := _normalize_tags reply.tags_en
  let visual := pyStripS reply.visual_en
  let positive_parts : List String :=
    (if QUALITY_CHAIN ≠ "" then [QUALITY_CHAIN] else []) ++
    (if base_clean ≠ "" then [base_clean] else []) ++
    (if tags ≠ [] then tags else []) ++
    (if visual ≠ "" then [visual] else []) ++
    (if lora_tokens ≠ [] then lora_tokens else [])
  pyJoin ", " (positive_parts.filter (fun p => p ≠ ""))

/-! ### `lora_mapping.py` -/

/-- A catalog entry.  The Python `weight: float` is modelled as an exact
rational (all catalog and fallback weights are two-decimal literals whose
`Float` comparisons are exact). -/
structure LoRAEntry where
  name : String
  weight : ℚ
  category : String
  keywords : List String
  sdxl_ok : Bool := true
  notes : String := ""
  triggers : List String := []
deriving DecidableEq, Repr

def CATEGORY_LIMITS : List (String × Nat) :=
  [("adapter", 1), ("utility", 2), ("realism", 1), ("style", 1), ("slider", 1),
   ("morph", 1), ("nsfw", 1)]

def MAX_TOTAL_LORAS : Nat := 3

/-- Fallbacks when no LoRA matched, in priority order (identifier, override weight). -/
def FALLBACKS : List (String × ℚ) :=
  [("add_detail", mkRat 20 100), ("flux_realism_lora", mkRat 30 100), ("detailed_notrigger", mkRat 25 100)]

/-- The module-level catalog (only the entries that are not commented out in
the source, in source order). -/
def LORAS : List LoRAEntry :=
  [{ name := "ip-adapter-faceid-plusv2_sdxl_lora", weight := mkRat 8 10, category := "adapter",
     keywords := ["reference face", "same person", "face match", "face reference",
       "identity match", "match face", "keep identity"],
     notes := "Align face to a reference image (IP-Adapter).", triggers := ["face id adapter"] },
   { name := "add_detail", weight := mkRat 4 10, category := "utility", sdxl_ok := false,
     keywords := ["detail", "details", "high detail", "sharp", "sharpen", "clarity", "texture"],
     notes := "Non-XL variant.", triggers := ["add detail"] },
   { name := "Hand v2", weight := mkRat 7 10, category := "utility",
     keywords := ["hand", "hands", "fingers", "finger", "palm", "palms", "grip", "grasp",
       "hand pose", "hand gesture", "gestures"],
     notes := "Improves hands/fingers.", triggers := ["hands detail"] },
   { name := "detailed_notrigger", weight := mkRat 45 100, category := "utility",
     keywords := ["detail", "details", "micro detail", "texture", "sharp", "clarity", "crisp"],
     triggers := ["detailed helper"] },
   { name := "epiRealismHelper", weight := mkRat 4 10, category := "utility",
     keywords := ["realism helper", "skin detail", "skin texture", "natural skin", "realistic",
       "pores", "skin pores"],
     triggers := ["realism helper"] },
   { name := "KrekkovLycoXLV2", weight := mkRat 5 10, category := "realism",
     keywords := ["xl", "detail", "realism", "texture", "sharp", "crisp", "clarity"],
     triggers := ["krekkov xl"] },
   { name := "SummertimeSagaXL_Pony", weight := mkRat 45 100, category := "realism",
     keywords := ["toon realism", "comic realism", "summertime saga", "pony", "mlp",
       "cel shading realistic"],
     notes := "Toon-realism look.", triggers := ["summertime saga xl"] },
   { name := "Abstract Painting - Style [LoRA] - Pony V6", weight := mkRat 6 10, category := "style",
     keywords := ["painting", "painterly", "abstract", "brush stroke", "oil paint",
       "oil painting", "canvas texture", "impasto", "pony"],
     triggers := ["abstract painting style"] },
   { name := "Oscar_ILL", weight := mkRat 5 10, category := "style",
     keywords := ["illustration", "illustrative", "cartoon", "flat shading", "line art",
       "comic", "posterized"],
     triggers := ["illustration style"] },
   { name := "g0th1c2XLP", weight := mkRat 6 10, category := "style",
     keywords := ["goth", "gothic", "dark", "moody", "black makeup", "punk", "alt", "alternative"],
     triggers := ["gothic style"] },
   { name := "MythAnim3Style", weight := mkRat 55 100, category := "style",
     keywords := ["anime", "myth", "mythical", "fantasy anime", "stylized", "cel shading"],
     triggers := ["myth anime style"] },
   { name := "Expressive_H-000001", weight := mkRat 2 10, category := "style",
     keywords := ["expressive", "emotional", "facial expression", "intense gaze",
       "expressive face", "expressive eyes"],
     notes := "Enhances facial expressiveness; keep low weight.", triggers := ["expressive face"] },
   { name := "perfection style v2d", weight := mkRat 5 10, category := "style",
     keywords := ["perfect", "beauty perfection", "studio beauty", "beauty retouch",
       "polished look", "airbrushed"],
     triggers := ["perfection style"] },
   { name := "FluxMythP0rtr4itStyle", weight := mkRat 55 100, category := "style",
     keywords := ["portrait style", "myth", "oil painting", "classical portrait", "fine art"],
     triggers := ["myth portrait style"] },
   { name := "Pony Realism Slider", weight := mkRat 5 10, category := "slider",
     keywords := ["pony", "mlp", "realism"],
     triggers := ["pony realism slider"] },
   { name := "StS_PonyXL_Detail_Slider_v1.4_iteration_3", weight := mkRat 5 10, category := "slider",
     keywords := ["pony", "xl detail", "pony detail", "texture", "detail slider"],
     triggers := ["pony xl detail slider"] },
   { name := "huge fake tits XL v3", weight := mkRat 5 10, category := "morph",
     keywords := ["fake tits", "implants", "very large breasts", "enormous breasts",
       "huge boobs", "giant breasts"],
     triggers := ["huge fake tits"] },
   { name := "Penis Size_alpha1.0_rank4_noxattn_last", weight := mkRat 6 10, category := "morph",
     keywords := ["penis size", "large penis", "male nsfw", "big penis"],
     triggers := ["penis size"] },
   { name := "Masturbation-000018", weight := mkRat 6 10, category := "nsfw",
     keywords := ["masturbation", "self play", "self pleasure", "fingers in", "solo play"],
     triggers := ["masturbation pose"] },
   { name := "shiObjectInsertionV1", weight := mkRat 6 10, category := "nsfw",
     keywords := ["object insertion", "penetration", "toy insertion", "insert object"],
     triggers := ["object insertion"] },
   { name := "Bondage_and_the_Anal_Hook", weight := mkRat 6 10, category := "nsfw",
     keywords := ["anal hook", "bondage", "bdsm", "restraints", "shibari"],
     triggers := ["anal hook bondage"] },
   { name := "sex_Flux_5", weight := mkRat 55 100, category := "nsfw",
     keywords := ["sex scene", "intercourse", "vagina", "penetrative sex", "sexual position",
       "sex pose"],
     triggers := ["sex scene"] },
   { name := "tablesex_v1.1", weight := mkRat 55 100, category := "nsfw",
     keywords := ["table sex", "on table", "table ", "table position", "tabletop sex"],
     triggers := ["table sex"] },
   { name := "povcun-000015", weight := mkRat 45 100, category := "nsfw",
     keywords := ["2girls", "two women", "lesbian", "lesbian sex", "intimate moment"],
     triggers := ["2girls"] }]

/-- `_text_corpus`: join tags (plus visual when non-empty) with spaces, lower,
then replace `-`, `_`, `/` by spaces. -/
def _text_corpus (tags : List String) (visual : String) : String :=
  let joined := pyJoin " " (tags ++ (if visual ≠ "" then [visual] else []))
  let t := pyLowerS joined
  ⟨pyReplace ("/").data (" ").data (pyReplace ("_").data (" ").data (pyReplace ("-").data (" ").data t.data))⟩

/-- `_score_entry`: how many keywords occur (as substrings, case-insensitively)
in the corpus. -/
def _score_entry (text : String) (entry : LoRAEntry) : Nat :=
  entry.keywords.countP (fun k => k != "" && substrIn (pyLowerS k).data text.data)

def _find_entry_by_name (loras : List LoRAEntry) (name : String) : Option LoRAEntry :=
  loras.find? (fun e => e.name == name)

/-- The comparator realising Python's
`sorted(key=lambda e: (score, -0.0001 * weight), reverse=True)` as a stable
sort's `le`: `a` may stay before `b` iff `b`'s key is at most `a`'s key in
the lexicographic order (like CPython's stable sort with `reverse=True`).
Because multiplication by the negative constant reverses order,
`-0.0001 * b.weight ≤ -0.0001 * a.weight` is written as
`a.weight ≤ b.weight` (`candKeyLE_matches_python_key` below proves the two
comparators equal). -/
def candKeyLE (text : String) (a b : LoRAEntry) : Bool :=
  decide (_score_entry text b < _score_entry text a ∨
    (_score_entry text b = _score_entry text a ∧ a.weight ≤ b.weight))

/-- The `candidates` of `pick_loras`: compatibility filter then the stable
reverse sort. -/
def sortedCandidates (loras : List LoRAEntry) (text : String) (sdxl : Bool) : List LoRAEntry :=
  insertionSortB (candKeyLE text) (loras.filter (fun e => e.sdxl_ok || !sdxl))

/-- Per-category count of a partial selection (the code's `used_per_cat` dict
always equals this count of `picked`, since both are updated together). -/
def countCat (picked : List LoRAEntry) (c : String) : Nat :=
  picked.countP (fun e => e.category == c)

/-- `CATEGORY_LIMITS.get(category, 1)`. -/
def catLimitOf (c : String) : Nat := (CATEGORY_LIMITS.lookup c).getD 1

/-- The main greedy walk of `pick_loras` over the sorted candidates. -/
def mainWalk (text : String) (maxTotal : Nat) : List LoRAEntry → List LoRAEntry → List LoRAEntry
  | picked, [] => picked
  | picked, e :: rest =>
    if maxTotal ≤ picked.length then picked
    else if _score_entry text e = 0 then mainWalk text maxTotal picked rest
    else if catLimitOf e.category ≤ countCat picked e.category then mainWalk text maxTotal picked rest
    else mainWalk text maxTotal (picked ++ [e]) rest

/-- The fallback walk of `pick_loras` over `FALLBACKS` (same quota and cap
logic; missing identifiers are skipped; the entry is copied with the override
weight). -/
def fallbackWalk (loras : List LoRAEntry) (maxTotal : Nat) :
    List LoRAEntry → List (String × ℚ) → List LoRAEntry
  | picked, [] => picked
  | picked, (nm, w) :: rest =>
    if maxTotal ≤ picked.length then picked
    else
      match _find_entry_by_name loras nm with
      | none => fallbackWalk loras maxTotal picked rest
      | some e =>
        if catLimitOf e.category ≤ countCat picked e.category then
          fallbackWalk loras maxTotal picked rest
        else fallbackWalk loras maxTotal (picked ++ [{ e with weight := w }]) rest

/-- `pick_loras`, with the module-level catalog made an explicit argument (the
source reads the global `LORAS`; pass `LORAS` to recover it exactly). -/
def pick_loras (loras : List LoRAEntry) (tags : List String) (visual : String)
    (sdxl : Bool) (maxTotal : Nat) : List LoRAEntry :=
  let text := _text_corpus tags visual
  let candidates := sortedCandidates loras text sdxl
  let picked := mainWalk text maxTotal [] candidates
  let picked := if picked = [] then fallbackWalk loras maxTotal [] FALLBACKS else picked
  picked.take maxTotal

/-! ### Concrete example inputs used by witnesses and counterexamples -/

/-- A well-formed structured record. -/
def exStrictInput : String :=
  "\x7b" ++ "\"reply_it\": \"Ciao\", \"tags_en\": [\"smile\"], \"visual_en\": \"glow\", \"follow_up_action\": null" ++ "\x7d"

def exStrictVal : JVal :=
  JVal.obj [("reply_it", JVal.str "Ciao"), ("tags_en", JVal.arr [JVal.str "smile"]),
    ("visual_en", JVal.str "glow"), ("follow_up_action", JVal.null)]

/-- The same record wrapped in leading/trailing noise. -/
def exWrappedInput : String := "Sure! Here is the JSON: " ++ exStrictInput ++ " Hope you like it."

/-- A labeled-block reply with no structured wrapper. -/
def exLabeledInput : String :=
  "Ciao bella\ntags_en: [\"smile\", \"sunset\"]\nvisual_en: A warm glow.\nfollow_up_action: request_image"

def exLabeledVal : JVal :=
  JVal.obj [("reply_it", JVal.str "Ciao bella"),
    ("tags_en", JVal.arr [JVal.str "smile", JVal.str "sunset"]),
    ("visual_en", JVal.str "A warm glow."), ("follow_up_action", JVal.str "request_image")]

/-- Plain prose. -/
def exProseInput : String := "Just plain prose."

/-- Line-anchored labels with a bracketed tags block that is not valid JSON. -/
def exBadTagsInput : String := "Ciao\ntags_en: [broken]\nvisual_en: ok"

/-- A structured record whose tags are case-insensitive duplicates. -/
def exDupTagsInput : String :=
  "\x7b" ++ "\"reply_it\": \"x\", \"tags_en\": [\"a\", \"A\"], \"visual_en\": \"y\", \"follow_up_action\": null" ++ "\x7d"

/-- A structured record with a padded tag and an empty tag. -/
def exPaddedTagsInput : String :=
  "\x7b" ++ "\"reply_it\": \"x\", \"tags_en\": [\" a \", \"\"], \"visual_en\": \"\", \"follow_up_action\": null" ++ "\x7d"

/-- A base description in which stripping the first occurrence of
`award-winning photo` and collapsing whitespace splices the doubled-space
second occurrence back into the token. -/
def exSplicedBase : String := "award-winning photo award-winning  photo"

/-! ### Basic lemmas about the string helpers -/

theorem dropWhile_dropWhile (p : Char → Bool) (l : List Char) :
    (l.dropWhile p).dropWhile p = l.dropWhile p := by
  induction l with
  | nil => simp
  | cons c t ih =>
    by_cases h : p c
    · simp [List.dropWhile_cons, h, ih]
    · simp [List.dropWhile_cons, h]

theorem trimLeft_idem (l : List Char) : trimLeft (trimLeft l) = trimLeft l :=
  dropWhile_dropWhile pyIsSpace l

theorem trimRight_idem (l : List Char) : trimRight (trimRight l) = trimRight l := by
  unfold trimRight
  rw [List.reverse_reverse, dropWhile_dropWhile]

theorem trimRight_cons (c : Char) (t : List Char) :
    trimRight (c :: t) = [] ∨ ∃ t', trimRight (c :: t) = c :: t' := by
  unfold trimRight
  rw [List.reverse_cons, List.dropWhile_append]
  by_cases h : (t.reverse.dropWhile pyIsSpace).isEmpty
  · rw [if_pos h]
    by_cases hc : pyIsSpace c
    · left; simp [List.dropWhile_cons, hc]
    · right; exact ⟨[], by simp [List.dropWhile_cons, hc]⟩
  · rw [if_neg h]
    right
    exact ⟨(t.reverse.dropWhile pyIsSpace).reverse, by simp⟩

theorem trimLeft_trimRight (l : List Char) (h : trimLeft l = l) :
    trimLeft (trimRight l) = trimRight l := by
  cases l with
  | nil => rfl
  | cons c t =>
    have hc : pyIsSpace c = false := by
      by_contra hcc
      have hc' : pyIsSpace c = true := by
        cases hcv : pyIsSpace c
        · exact absurd hcv hcc
        · rfl
      have h2 : trimLeft (c :: t) = trimLeft t := by simp [trimLeft, hc']
      have hlen := congrArg List.length (h.symm.trans h2)
      have h3 : (t.dropWhile pyIsSpace).length ≤ t.length :=
        (List.dropWhile_sublist pyIsSpace).length_le
      simp only [trimLeft, List.length_cons] at hlen
      omega
    rcases trimRight_cons c t with h0 | ⟨t', ht'⟩
    · rw [h0]; rfl
    · rw [ht']
      simp [trimLeft, List.dropWhile_cons, hc]

theorem pyStripL_idem (l : List Char) : pyStripL (pyStripL l) = pyStripL l := by
  unfold pyStripL
  have h1 : trimLeft (trimRight (trimLeft l)) = trimRight (trimLeft l) :=
    trimLeft_trimRight (trimLeft l) (trimLeft_idem l)
  rw [h1, trimRight_idem]

theorem pyStripS_idem (s : String) : pyStripS (pyStripS s) = pyStripS s := by
  unfold pyStripS
  exact congrArg String.mk (pyStripL_idem s.data)

theorem startsWithL_nil (p : List Char) (hp : p ≠ []) : startsWithL p [] = false := by
  cases p with
  | nil => exact absurd rfl hp
  | cons c cs => rfl

theorem matchCount_eq_zero_iff (pat l : List Char) :
    matchCount pat l = 0 ↔ substrIn pat l = false := by
  induction l with
  | nil =>
    by_cases hp : pat = []
    · subst hp; simp [matchCount, substrIn, startsWithL]
    · simp [matchCount, substrIn, hp, startsWithL_nil pat hp]
  | cons c rest ih =>
    rw [matchCount, substrIn]
    cases hs : startsWithL pat (c :: rest)
    · simpa using ih
    · simp

/-- Splitting a prefix match across an append: when the pattern is longer than
the left part, it decomposes as that left part followed by a prefix of the
right part. -/
theorem startsWithL_append_split (x b pat : List Char)
    (h : startsWithL pat (x ++ b) = true) (hlen : x.length < pat.length) :
    ∃ p₂, pat = x ++ p₂ ∧ p₂ ≠ [] ∧ startsWithL p₂ b = true := by
  induction x generalizing pat with
  | nil =>
    refine ⟨pat, rfl, ?_, by simpa using h⟩
    intro hnil
    rw [hnil] at hlen
    simp at hlen
  | cons c x' ih =>
    cases pat with
    | nil => simp at hlen
    | cons q qs =>
      rw [List.cons_append, startsWithL, Bool.and_eq_true, beq_iff_eq] at h
      obtain ⟨p₂, hqs, hne, hb⟩ := ih qs h.2 (by simpa using hlen)
      exact ⟨p₂, by rw [h.1, hqs, List.cons_append], hne, hb⟩

theorem startsWithL_length_le (p l : List Char) (h : startsWithL p l = true) :
    p.length ≤ l.length := by
  induction p generalizing l with
  | nil => simp
  | cons q qs ih =>
    cases l with
    | nil => simp [startsWithL] at h
    | cons c cs =>
      rw [startsWithL, Bool.and_eq_true] at h
      have := ih cs h.2
      simp only [List.length_cons]
      omega

theorem startsWithL_append_left (p a b : List Char) (h : p.length ≤ a.length) :
    startsWithL p (a ++ b) = startsWithL p a := by
  induction p generalizing a with
  | nil => simp [startsWithL]
  | cons q qs ih =>
    cases a with
    | nil => simp at h
    | cons c cs =>
      rw [List.cons_append, startsWithL, startsWithL, ih cs (by simpa using h)]

theorem startsWithL_false_of_long (p a : List Char) (h : a.length < p.length) :
    startsWithL p a = false := by
  cases hs : startsWithL p a
  · rfl
  · exact absurd (startsWithL_length_le p a hs) (by omega)

/-- Occurrence counts add across an append when no occurrence straddles the
seam. -/
theorem matchCount_append (pat a b : List Char) (hpat : pat ≠ [])
    (hcross : ∀ i, i < a.length → a.length < i + pat.length →
      startsWithL pat ((a ++ b).drop i) = false) :
    matchCount pat (a ++ b) = matchCount pat a + matchCount pat b := by
  induction a with
  | nil => simp [matchCount, hpat]
  | cons c a' ih =>
    have hcross' : ∀ i, i < a'.length → a'.length < i + pat.length →
        startsWithL pat ((a' ++ b).drop i) = false := by
      intro i hi hlen
      have h0 := hcross (i + 1) (by simp; omega) (by simp; omega)
      simpa using h0
    have hhead : startsWithL pat (c :: (a' ++ b)) = startsWithL pat (c :: a') := by
      by_cases hle : pat.length ≤ (c :: a').length
      · have h0 := startsWithL_append_left pat (c :: a') b hle
        simpa using h0
      · have h1 : startsWithL pat (c :: a') = false :=
          startsWithL_false_of_long pat (c :: a') (by omega)
        have h2 := hcross 0 (by simp)
          (by simp only [List.length_cons] at hle ⊢; omega)
        simpa [h1] using h2
    rw [List.cons_append]
    simp only [matchCount]
    rw [ih hcross', hhead]
    omega

/-! ### C1 — parser/coercion totality -/

/-- C1: the parse-and-coerce pipeline of `generate_reply` is NOT total: on the
input `"123"` (valid JSON that is not an object), `json.loads` succeeds with
the integer `123`, `_parse_llm_content` returns it unchanged, and
`obj.get("reply_it")` in `generate_reply` raises `AttributeError`.  This
evaluates the embedded code at that failing input. -/
theorem C1_pipeline_raises_on_nonobject_json :
    generate_reply_pipeline "123" = Except.error "AttributeError" ∧
    parse_llm_content_staged "123" = (ParseStage.strict, JVal.num 123) := by
  exact ⟨rfl, rfl⟩

/-! ### C4 — parser stage precedence -/

/-- C4 counterexample: `exBadTagsInput` has line-anchored labels
(`tags_en:` and `visual_en:` both occur at line starts) and no valid
structured wrapper (`json.loads` fails and there is no brace pair), yet the
parser does NOT decode it at the labeled-block stage: the bracketed tags
group `[broken]` is invalid JSON, the stage's `except Exception` swallows the
decode error, and the input falls through to the unstructured fallback. -/
theorem C4_counterexample_labeled_block_falls_through :
    json_loads exBadTagsInput = none ∧
    findSubIdx tagsLabel (pyLowerL exBadTagsInput.data) = some 5 ∧
    findSubIdx visualLabel (pyLowerL exBadTagsInput.data) = some 23 ∧
    (parse_llm_content_staged exBadTagsInput).1 = ParseStage.unstructured := by
  refine ⟨rfl, by decide, by decide, rfl⟩

/-! ### C6 — tags handed to consumers -/

/-- C6 counterexample: on `exDupTagsInput` the pipeline succeeds and hands
consumers the tag list `["a", "A"]`, which contains two entries equal under
case-insensitive comparison — `generate_reply` never deduplicates. -/
theorem C6_counterexample_duplicate_tags :
    generate_reply_pipeline exDupTagsInput =
      Except.ok ⟨"x", ["a", "A"], "y", none⟩ ∧
    pyLowerS "a" = pyLowerS "A" := by
  exact ⟨rfl, rfl⟩

/-! ### C7 — candidate ordering -/

/-- C7 counterexample: on the corpus `"texture"` three compatible entries
score exactly 1; the sort places `detailed_notrigger` (weight 0.45) before
`KrekkovLycoXLV2` (weight 0.5), i.e. equal-score entries are ordered by
weight ASCENDING, refuting the claimed descending tie-break (the key
`-0.0001 * weight` under `reverse=True` inverts the weight order). -/
theorem C7_counterexample_tie_order :
    ((sortedCandidates LORAS (_text_corpus ["texture"] "") true).take 2).map
        (fun e => (e.name, _score_entry (_text_corpus ["texture"] "") e, e.weight)) =
      [("detailed_notrigger", 1, mkRat 45 100), ("KrekkovLycoXLV2", 1, mkRat 5 10)] ∧
    mkRat 45 100 < mkRat 5 10 ∧
    mkRat 45 100 = (0.45 : ℚ) ∧ mkRat 5 10 = (0.5 : ℚ) := by
  refine ⟨by decide, by decide, by norm_num [Rat.mkRat_eq_div], by norm_num [Rat.mkRat_eq_div]⟩

/-! ### C9 — quality token duplication -/

set_option maxRecDepth 4000 in
/-- C9 counterexample: the token `award-winning photo` occurs verbatim in
`exSplicedBase`; stripping removes that occurrence, but whitespace collapsing
splices the remaining `award-winning  photo` (double space) into the token
again, so the final positive prompt contains the token twice (once from the
always-prepended header, once from the cleaned base). -/
theorem C9_counterexample_respliced_token :
    substrIn ("award-winning photo").data exSplicedBase.data = true ∧
    "award-winning photo" ∈ QUALITY_TAGS ∧
    matchCount ("award-winning photo").data
      (build_positive exSplicedBase ⟨"", [], "", none⟩ []).data = 2 := by
  refine ⟨by decide, by decide, by decide⟩

/-! ### C2 — the any-one-signal gate -/

theorem user_asks_iff (t : String) :
    _user_asks_for_image t = true ↔
      ∃ w ∈ USER_TRIGGER_WORDS, substrIn w.data (pyLowerS t).data = true := by
  by_cases h : t = ""
  · subst h
    constructor
    · intro hb
      exact absurd hb (by decide)
    · rintro ⟨w, hw, hsub⟩
      have hfalse : ∀ w' ∈ USER_TRIGGER_WORDS, substrIn w'.data (pyLowerS "").data = false := by
        decide
      rw [hfalse w hw] at hsub
      exact absurd hsub (by decide)
  · unfold _user_asks_for_image
    rw [if_neg h, List.any_eq_true]

theorem promises_iff (t : String) :
    _character_promises_image t = true ↔
      ∃ p ∈ CHARACTER_PROMISE_WORDS, substrIn p.data (pyLowerS t).data = true := by
  by_cases h : t = ""
  · subst h
    constructor
    · intro hb
      exact absurd hb (by decide)
    · rintro ⟨p, hp, hsub⟩
      have hfalse : ∀ p' ∈ CHARACTER_PROMISE_WORDS, substrIn p'.data (pyLowerS "").data = false := by
        decide
      rw [hfalse p hp] at hsub
      exact absurd hsub (by decide)
  · unfold _character_promises_image
    rw [if_neg h, List.any_eq_true]

theorem followup_iff (reply : LLMReply) :
    _followup_requests_image reply = true ↔
      ∃ f, reply.follow_up_action = some f ∧ pyLowerS (pyStripS f) = "request_image" := by
  unfold _followup_requests_image
  cases hf : reply.follow_up_action with
  | none =>
    have hred0 : (match (none : Option String) with
        | none => false
        | some g => if g = "" then false else pyLowerS (pyStripS g) == "request_image") = false := rfl
    rw [hred0]
    simp
  | some f =>
    have hred : (match some f with
        | none => false
        | some g => if g = "" then false else pyLowerS (pyStripS g) == "request_image") =
        (if f = "" then false else pyLowerS (pyStripS f) == "request_image") := rfl
    rw [hred]
    by_cases h0 : f = ""
    · subst h0
      rw [if_pos rfl]
      constructor
      · intro hb
        exact absurd hb (by decide)
      · rintro ⟨g, hg, hlow⟩
        rw [Option.some.injEq] at hg
        subst hg
        exact absurd hlow (by decide)
    · rw [if_neg h0]
      constructor
      · intro hb
        exact ⟨f, rfl, eq_of_beq hb⟩
      · rintro ⟨g, hg, hlow⟩
        rw [Option.some.injEq] at hg
        subst hg
        exact beq_iff_eq.mpr hlow

theorem decide_image_request_eq (user_text : String) (reply : LLMReply) :
    decide_image_request user_text reply =
      (if _user_asks_for_image user_text then ⟨true, "user_request"⟩
       else if _character_promises_image reply.reply_it then ⟨true, "character_promise"⟩
       else if _followup_requests_image reply then ⟨true, "follow_up_action"⟩
       else ⟨false, "no_trigger"⟩ : ImageDecision) := rfl

/-- C2: in the hard-coded any-one-signal mode, the gate fires exactly when a
user trigger word occurs case-insensitively in the user text, or a promise
phrase occurs case-insensitively in the reply dialogue, or the trimmed,
lowercased `follow_up_action` equals `request_image`; the decision ignores
`visual_en`/`tags_en` entirely (visual richness alone never triggers); and the
reported reason is the highest-priority true signal in the order
UserRequest > CharacterPromise > FollowUpSignal, else NoTrigger. -/
theorem C2_gate_any_one_signal (user_text : String) (reply : LLMReply) :
    ((decide_image_request user_text reply).will_generate = true ↔
      ((∃ w ∈ USER_TRIGGER_WORDS, substrIn w.data (pyLowerS user_text).data = true) ∨
       (∃ p ∈ CHARACTER_PROMISE_WORDS, substrIn p.data (pyLowerS reply.reply_it).data = true) ∨
       (∃ f, reply.follow_up_action = some f ∧ pyLowerS (pyStripS f) = "request_image"))) ∧
    (∀ v ts, decide_image_request user_text
      { reply with visual_en := v, tags_en := ts } = decide_image_request user_text reply) ∧
    ((∃ w ∈ USER_TRIGGER_WORDS, substrIn w.data (pyLowerS user_text).data = true) →
      (decide_image_request user_text reply).reason = "user_request") ∧
    (¬(∃ w ∈ USER_TRIGGER_WORDS, substrIn w.data (pyLowerS user_text).data = true) →
      (∃ p ∈ CHARACTER_PROMISE_WORDS, substrIn p.data (pyLowerS reply.reply_it).data = true) →
      (decide_image_request user_text reply).reason = "character_promise") ∧
    (¬(∃ w ∈ USER_TRIGGER_WORDS, substrIn w.data (pyLowerS user_text).data = true) →
      ¬(∃ p ∈ CHARACTER_PROMISE_WORDS, substrIn p.data (pyLowerS reply.reply_it).data = true) →
      (∃ f, reply.follow_up_action = some f ∧ pyLowerS (pyStripS f) = "request_image") →
      (decide_image_request user_text reply).reason = "follow_up_action") ∧
    (¬(∃ w ∈ USER_TRIGGER_WORDS, substrIn w.data (pyLowerS user_text).data = true) →
      ¬(∃ p ∈ CHARACTER_PROMISE_WORDS, substrIn p.data (pyLowerS reply.reply_it).data = true) →
      ¬(∃ f, reply.follow_up_action = some f ∧ pyLowerS (pyStripS f) = "request_image") →
      (decide_image_request user_text reply).reason = "no_trigger" ∧
        (decide_image_request user_text reply).will_generate = false) := by
  have hU := user_asks_iff user_text
  have hP := promises_iff reply.reply_it
  have hF := followup_iff reply
  refine ⟨?_, fun v ts => rfl, ?_, ?_, ?_, ?_⟩ <;>
  · cases hu : _user_asks_for_image user_text <;>
    cases hp : _character_promises_image reply.reply_it <;>
    cases hfu : _followup_requests_image reply <;>
    simp_all [decide_image_request_eq]

/-- C2 witness: for user text `mandami una foto` (trigger word `foto`) and a
reply with no promise phrase and no follow-up, the gate fires with reason
`user_request`. -/
theorem C2_gate_any_one_signal_witness :
    (decide_image_request "mandami una foto" ⟨"Va bene", [], "", none⟩).will_generate = true ∧
    (decide_image_request "mandami una foto" ⟨"Va bene", [], "", none⟩).reason = "user_request" :=
  ⟨(C2_gate_any_one_signal "mandami una foto" ⟨"Va bene", [], "", none⟩).1.mpr
      (Or.inl ⟨"foto", by decide, by decide⟩),
   (C2_gate_any_one_signal "mandami una foto" ⟨"Va bene", [], "", none⟩).2.2.1
      ⟨"foto", by decide, by decide⟩⟩

/-! ### C5 — the quorum voting mode (spec-modelled) -/

/-- C5: in quorum mode with threshold 2, generation triggers exactly when at
least two of UserRequest, CharacterPromise, VisualRichness are simultaneously
true; VisualRichness alone never triggers; and UserRequest together with
VisualRichness triggers with the reason `user_request` (priority order).  The
quorum gate exists only as a superseded revision outside `src/` and is
modelled from the spec (§4.3). -/
theorem C5_quorum_gate (minTags : Nat) (user_text : String) (reply : LLMReply) :
    ((decide_image_request_quorum 2 minTags user_text reply).will_generate = true ↔
      2 ≤ (if _user_asks_for_image user_text then 1 else 0) +
          (if _character_promises_image reply.reply_it then 1 else 0) +
          (if visual_richness minTags reply then 1 else 0)) ∧
    (visual_richness minTags reply = true → _user_asks_for_image user_text = false →
      _character_promises_image reply.reply_it = false →
      (decide_image_request_quorum 2 minTags user_text reply).will_generate = false) ∧
    (_user_asks_for_image user_text = true → visual_richness minTags reply = true →
      decide_image_request_quorum 2 minTags user_text reply = ⟨true, "user_request"⟩) := by
  cases hu : _user_asks_for_image user_text <;>
  cases hp : _character_promises_image reply.reply_it <;>
  cases hv : visual_richness minTags reply <;>
    simp_all [decide_image_request_quorum]

/-- C5 witness, the spec's two quorum examples: user text `manda una foto`
with a visually rich reply (6 tags, non-empty visual) triggers with reason
`user_request`; VisualRichness alone (user text `ciao`, no promise) does not
trigger. -/
theorem C5_quorum_gate_witness :
    decide_image_request_quorum 2 6 "manda una foto"
      ⟨"Certo!", ["a", "b", "c", "d", "e", "f"], "Warm sunset glow", none⟩ =
      ⟨true, "user_request"⟩ ∧
    (decide_image_request_quorum 2 6 "ciao"
      ⟨"Certo!", ["a", "b", "c", "d", "e", "f"], "Warm sunset glow", none⟩).will_generate = false :=
  ⟨(C5_quorum_gate 6 "manda una foto"
      ⟨"Certo!", ["a", "b", "c", "d", "e", "f"], "Warm sunset glow", none⟩).2.2
      (by decide) (by decide),
   (C5_quorum_gate 6 "ciao"
      ⟨"Certo!", ["a", "b", "c", "d", "e", "f"], "Warm sunset glow", none⟩).2.1
      (by decide) (by decide) (by decide)⟩

/-! ### C8 — the tag normalizer -/

theorem normalizeGo_mem (tags : List String) : ∀ (seen : List String) (x : String),
    x ∈ normalizeGo seen tags → ∃ t ∈ tags, x = pyStripS t ∧ x ≠ "" := by
  induction tags with
  | nil => intro seen x h; simp [normalizeGo] at h
  | cons t rest ih =>
    intro seen x h
    simp only [normalizeGo] at h
    split_ifs at h with h0 h1 h2
    · obtain ⟨u, hu, hx⟩ := ih seen x h
      exact ⟨u, List.mem_cons_of_mem _ hu, hx⟩
    · obtain ⟨u, hu, hx⟩ := ih seen x h
      exact ⟨u, List.mem_cons_of_mem _ hu, hx⟩
    · obtain ⟨u, hu, hx⟩ := ih seen x h
      exact ⟨u, List.mem_cons_of_mem _ hu, hx⟩
    · rcases List.mem_cons.mp h with hx | hx
      · exact ⟨t, List.mem_cons_self t rest, hx, by rw [hx]; exact h1⟩
      · obtain ⟨u, hu, hx⟩ := ih _ x hx
        exact ⟨u, List.mem_cons_of_mem _ hu, hx⟩

theorem normalizeGo_avoid_and_pairwise (tags : List String) : ∀ (seen : List String),
    (∀ x ∈ normalizeGo seen tags, pyLowerS x ∉ seen) ∧
    (normalizeGo seen tags).Pairwise (fun a b => pyLowerS a ≠ pyLowerS b) := by
  induction tags with
  | nil => intro seen; simp [normalizeGo]
  | cons t rest ih =>
    intro seen
    simp only [normalizeGo]
    split_ifs with h0 h1 h2
    · exact ih seen
    · exact ih seen
    · exact ih seen
    · obtain ⟨havoid, hpw⟩ := ih (pyLowerS (pyStripS t) :: seen)
      constructor
      · intro x hx
        rcases List.mem_cons.mp hx with hx | hx
        · rw [hx]; exact h2
        · intro hmem
          exact (havoid x hx) (List.mem_cons_of_mem _ hmem)
      · refine List.Pairwise.cons ?_ hpw
        intro y hy
        have := havoid y hy
        intro heq
        exact this (by rw [← heq]; exact List.mem_cons_self _ _)

theorem normalizeGo_sublist (tags : List String) : ∀ (seen : List String),
    (normalizeGo seen tags).Sublist (tags.map pyStripS) := by
  induction tags with
  | nil => intro seen; simp [normalizeGo]
  | cons t rest ih =>
    intro seen
    simp only [normalizeGo, List.map_cons]
    split_ifs with h0 h1 h2
    · exact (ih seen).cons _
    · exact (ih seen).cons _
    · exact (ih seen).cons _
    · exact (ih _).cons₂ _

theorem normalizeGo_complete (tags : List String) : ∀ (seen : List String) (t : String),
    t ∈ tags → pyStripS t ≠ "" →
    pyLowerS (pyStripS t) ∈ seen ∨
      ∃ u ∈ normalizeGo seen tags, pyLowerS u = pyLowerS (pyStripS t) := by
  induction tags with
  | nil => intro seen t h; simp at h
  | cons t0 rest ih =>
    intro seen t ht hne
    simp only [normalizeGo]
    split_ifs with h0 h1 h2
    · rcases List.mem_cons.mp ht with rfl | ht'
      · exact absurd (by rw [h0]; decide) hne
      · exact ih seen t ht' hne
    · rcases List.mem_cons.mp ht with rfl | ht'
      · exact absurd h1 hne
      · exact ih seen t ht' hne
    · rcases List.mem_cons.mp ht with rfl | ht'
      · exact Or.inl h2
      · exact ih seen t ht' hne
    · rcases List.mem_cons.mp ht with rfl | ht'
      · exact Or.inr ⟨pyStripS t, List.mem_cons_self _ _, rfl⟩
      · rcases ih (pyLowerS (pyStripS t0) :: seen) t ht' hne with hmem | ⟨u, hu, hlow⟩
        · rcases List.mem_cons.mp hmem with heq | hmem'
          · exact Or.inr ⟨pyStripS t0, List.mem_cons_self _ _, heq.symm⟩
          · exact Or.inl hmem'
        · exact Or.inr ⟨u, List.mem_cons_of_mem _ hu, hlow⟩

theorem normalizeGo_first_occurrence (tags : List String) : ∀ (seen : List String) (x : String),
    x ∈ normalizeGo seen tags → pyLowerS x ∉ seen →
    ((tags.map pyStripS).filter (fun s => s != "")).find?
      (fun y => pyLowerS y == pyLowerS x) = some x := by
  induction tags with
  | nil => intro seen x h; simp [normalizeGo] at h
  | cons t0 rest ih =>
    intro seen x hx hnotin
    simp only [normalizeGo] at hx
    simp only [List.map_cons]
    split_ifs at hx with h0 h1 h2
    · have hfil : List.filter (fun s => s != "") (pyStripS t0 :: List.map pyStripS rest) =
          List.filter (fun s => s != "") (List.map pyStripS rest) := by
        rw [h0]; simp [show pyStripS "" = "" from rfl]
      rw [hfil]
      exact ih seen x hx hnotin
    · have hfil : List.filter (fun s => s != "") (pyStripS t0 :: List.map pyStripS rest) =
          List.filter (fun s => s != "") (List.map pyStripS rest) := by
        simp [h1]
      rw [hfil]
      exact ih seen x hx hnotin
    · have hfil : List.filter (fun s => s != "") (pyStripS t0 :: List.map pyStripS rest) =
          pyStripS t0 :: List.filter (fun s => s != "") (List.map pyStripS rest) := by
        simp [h1]
      rw [hfil]
      have hne : ¬((fun y => pyLowerS y == pyLowerS x) (pyStripS t0) = true) := by
        simp only [beq_iff_eq]
        intro heq
        rw [heq] at h2
        exact hnotin h2
      rw [@List.find?_cons_of_neg _ (fun y => pyLowerS y == pyLowerS x) (pyStripS t0) _ hne]
      exact ih seen x hx hnotin
    · rcases List.mem_cons.mp hx with rfl | hx'
      · have hfil : List.filter (fun s => s != "") (pyStripS t0 :: List.map pyStripS rest) =
            pyStripS t0 :: List.filter (fun s => s != "") (List.map pyStripS rest) := by
          simp [h1]
        rw [hfil]
        exact List.find?_cons_of_pos _ (by simp)
      · have havoid := (normalizeGo_avoid_and_pairwise rest (pyLowerS (pyStripS t0) :: seen)).1
        have hxavoid := havoid x hx'
        have hfil : List.filter (fun s => s != "") (pyStripS t0 :: List.map pyStripS rest) =
            pyStripS t0 :: List.filter (fun s => s != "") (List.map pyStripS rest) := by
          simp [h1]
        rw [hfil]
        have hne : ¬((fun y => pyLowerS y == pyLowerS x) (pyStripS t0) = true) := by
          simp only [beq_iff_eq]
          intro heq
          exact hxavoid (by rw [heq]; exact List.mem_cons_self _ _)
        rw [@List.find?_cons_of_neg _ (fun y => pyLowerS y == pyLowerS x) (pyStripS t0) _ hne]
        exact ih _ x hx' hxavoid

theorem normalizeGo_id (l : List String) : ∀ (seen : List String),
    (∀ x ∈ l, x ≠ "" ∧ pyStripS x = x) →
    l.Pairwise (fun a b => pyLowerS a ≠ pyLowerS b) →
    (∀ x ∈ l, pyLowerS x ∉ seen) →
    normalizeGo seen l = l := by
  induction l with
  | nil => intro seen _ _ _; rfl
  | cons x rest ih =>
    intro seen hclean hpw havoid
    obtain ⟨hxne, hxstrip⟩ := hclean x (List.mem_cons_self _ _)
    simp only [normalizeGo]
    rw [if_neg hxne, hxstrip, if_neg hxne,
      if_neg (havoid x (List.mem_cons_self _ _))]
    congr 1
    refine ih _ (fun y hy => hclean y (List.mem_cons_of_mem _ hy))
      (List.Pairwise.sublist (List.sublist_cons_self _ _) hpw) ?_
    intro y hy
    rw [List.mem_cons]
    rintro (heq | hmem)
    · exact (List.rel_of_pairwise_cons hpw hy) heq.symm
    · exact havoid y (List.mem_cons_of_mem _ hy) hmem

/-- C8: `_normalize_tags` is a pure total function: every output element is
trimmed, no output element is empty, no two output elements are equal under
case-insensitive comparison, the output is a subsequence of the element-wise
stripped input (so relative order is preserved), each output element is the
first stripped non-blank occurrence of its case-insensitive key, every
non-blank input element has its key represented, the empty input yields the
empty output, and applying the function twice equals applying it once. -/
theorem C8_normalize_tags_spec (tags : List String) :
    (∀ x ∈ _normalize_tags tags, pyStripS x = x) ∧
    (∀ x ∈ _normalize_tags tags, x ≠ "") ∧
    (_normalize_tags tags).Pairwise (fun a b => pyLowerS a ≠ pyLowerS b) ∧
    (_normalize_tags tags).Sublist (tags.map pyStripS) ∧
    (∀ t ∈ tags, pyStripS t ≠ "" →
      ∃ u ∈ _normalize_tags tags, pyLowerS u = pyLowerS (pyStripS t)) ∧
    (∀ x ∈ _normalize_tags tags,
      ((tags.map pyStripS).filter (fun s => s != "")).find?
        (fun y => pyLowerS y == pyLowerS x) = some x) ∧
    _normalize_tags ([] : List String) = [] ∧
    _normalize_tags (_normalize_tags tags) = _normalize_tags tags := by
  refine ⟨?_, ?_, ?_, ?_, ?_, ?_, rfl, ?_⟩
  · intro x hx
    obtain ⟨t, _, hxt, _⟩ := normalizeGo_mem tags [] x hx
    rw [hxt]
    exact pyStripS_idem t
  · intro x hx
    obtain ⟨t, _, _, hne⟩ := normalizeGo_mem tags [] x hx
    exact hne
  · exact (normalizeGo_avoid_and_pairwise tags []).2
  · exact normalizeGo_sublist tags []
  · intro t ht hne
    rcases normalizeGo_complete tags [] t ht hne with hmem | hgood
    · exact absurd hmem (by simp)
    · exact hgood
  · intro x hx
    exact normalizeGo_first_occurrence tags [] x hx (by simp)
  · refine normalizeGo_id (_normalize_tags tags) [] ?_ ?_ ?_
    · intro x hx
      obtain ⟨t, _, hxt, hne⟩ := normalizeGo_mem tags [] x hx
      exact ⟨hne, by rw [hxt]; exact pyStripS_idem t⟩
    · exact (normalizeGo_avoid_and_pairwise tags []).2
    · intro x _
      simp

/-- C8 witness at `[" A", "a ", "", "b"]`: the output is `["A", "b"]`, the
non-blank input `"a "` has its key represented in the output, and
normalisation is idempotent there. -/
theorem C8_normalize_tags_spec_witness :
    _normalize_tags [" A", "a ", "", "b"] = ["A", "b"] ∧
    pyStripS "a " ≠ "" ∧
    (∃ u ∈ _normalize_tags [" A", "a ", "", "b"], pyLowerS u = pyLowerS (pyStripS "a ")) ∧
    _normalize_tags (_normalize_tags [" A", "a ", "", "b"]) =
      _normalize_tags [" A", "a ", "", "b"] :=
  ⟨by decide, by decide,
   (C8_normalize_tags_spec [" A", "a ", "", "b"]).2.2.2.2.1 "a " (by decide) (by decide),
   (C8_normalize_tags_spec [" A", "a ", "", "b"]).2.2.2.2.2.2.2⟩

/-! ### C6 (amended) — where tags are cleaned -/

theorem coerceTags_no_blank (tv : JVal) : ∀ t ∈ coerceTags tv, pyStripS t ≠ "" := by
  intro t ht
  cases tv <;> simp only [coerceTags] at ht
  case arr xs =>
    rw [List.mem_filter] at ht
    simpa using ht.2
  all_goals
    first
    | (split_ifs at ht with hcond
       · rw [List.mem_singleton] at ht
         subst ht
         simpa using hcond
       · simp at ht)

theorem pipeline_ok_tags (content : String) (r : LLMReply)
    (h : generate_reply_pipeline content = Except.ok r) :
    ∃ kvs, r.tags_en = coerceTagsOf kvs := by
  unfold generate_reply_pipeline coerce_reply at h
  cases hobj : parse_llm_content content with
  | obj kvs =>
    rw [hobj] at h
    have h2 : (match coerceReplyIt kvs with
        | JVal.str reply_it =>
          Except.ok (⟨reply_it, coerceTagsOf kvs, coerceVisualOf kvs,
            coerceFollowOf kvs⟩ : LLMReply)
        | _ => Except.error "ValidationError") = Except.ok r := h
    cases hrv : coerceReplyIt kvs <;> rw [hrv] at h2
    case str reply_it =>
      have hr : (⟨reply_it, coerceTagsOf kvs, coerceVisualOf kvs, coerceFollowOf kvs⟩ : LLMReply)
          = r := Except.ok.inj h2
      exact ⟨kvs, by rw [← hr]⟩
    all_goals simp at h2
  | null => rw [hobj] at h; simp at h
  | bool b => rw [hobj] at h; simp at h
  | num n => rw [hobj] at h; simp at h
  | str s => rw [hobj] at h; simp at h
  | arr xs => rw [hobj] at h; simp at h

/-- C6 (amended): whenever the pipeline succeeds, the tags handed to
consumers by `generate_reply` contain no blank (empty after strip) entries —
but they are not deduplicated there (see the counterexample); the
case-insensitive deduplication and trimming happen in
`ImageEngine._normalize_tags`, used by `build_prompts`, whose output has no
empty entries and no case-insensitive duplicates. -/
theorem C6_tags_postprocessing (content : String) (r : LLMReply)
    (h : generate_reply_pipeline content = Except.ok r) :
    (∀ t ∈ r.tags_en, pyStripS t ≠ "") ∧
    (∀ tags : List String,
      "" ∉ _normalize_tags tags ∧
      (_normalize_tags tags).Pairwise (fun a b => pyLowerS a ≠ pyLowerS b)) := by
  constructor
  · obtain ⟨kvs, htags⟩ := pipeline_ok_tags content r h
    rw [htags]
    unfold coerceTagsOf
    exact coerceTags_no_blank _
  · intro tags
    constructor
    · intro hmem
      obtain ⟨t, _, _, hne⟩ := normalizeGo_mem tags [] "" hmem
      exact hne rfl
    · exact (normalizeGo_avoid_and_pairwise tags []).2

/-- C6 witness: on `exPaddedTagsInput` the pipeline keeps the padded tag
`" a "` verbatim (non-blank) and drops the empty tag; and `_normalize_tags`
deduplicates `["a", "A", ""]` case-insensitively. -/
theorem C6_tags_postprocessing_witness :
    generate_reply_pipeline exPaddedTagsInput = Except.ok ⟨"x", [" a "], "", none⟩ ∧
    (∀ t ∈ (LLMReply.mk "x" [" a "] "" none).tags_en, pyStripS t ≠ "") ∧
    "" ∉ _normalize_tags ["a", "A", ""] ∧
    (_normalize_tags ["a", "A", ""]).Pairwise (fun a b => pyLowerS a ≠ pyLowerS b) := by
  have h : generate_reply_pipeline exPaddedTagsInput = Except.ok ⟨"x", [" a "], "", none⟩ := rfl
  have hmain := C6_tags_postprocessing exPaddedTagsInput ⟨"x", [" a "], "", none⟩ h
  exact ⟨h, hmain.1, (hmain.2 ["a", "A", ""]).1, (hmain.2 ["a", "A", ""]).2⟩

/-! ### C4 (amended) — the four-stage ladder -/

/-- C4 (amended): the four strategies are attempted in fixed order with first
success winning: (1) any input the whole of which decodes as JSON parses at
the strict stage with that value; (2) otherwise, if the first-`{`-to-last-`}`
substring decodes, the input parses at the brace-substring stage; (3)
otherwise, if the labeled-block extraction succeeds (non-empty tags or
visual, and no decode error in a bracketed tags group), the input parses at
the labeled stage; (4) otherwise the unstructured fallback fires, putting the
stripped text (cut before a literal `tags_en:`) into the dialogue field with
empty tags, empty visual and no follow-up. -/
theorem C4_parser_stage_order :
    (∀ (s : String) (v : JVal), json_loads s = some v →
      parse_llm_content_staged s = (ParseStage.strict, v)) ∧
    (∀ (s : String) (v : JVal), json_loads s = none → stage2 s.data = some v →
      parse_llm_content_staged s = (ParseStage.recoveredJson, v)) ∧
    (∀ (s : String) (v : JVal), json_loads s = none → stage2 s.data = none →
      stage3 s.data = some v →
      parse_llm_content_staged s = (ParseStage.recoveredLabeled, v)) ∧
    (∀ s : String, json_loads s = none → stage2 s.data = none → stage3 s.data = none →
      parse_llm_content_staged s =
        (ParseStage.unstructured,
          JVal.obj [("reply_it",
              JVal.str ⟨pyStripL (takeBeforeFirst tagsLabel (pyStripL s.data))⟩),
            ("tags_en", JVal.arr []), ("visual_en", JVal.str ""),
            ("follow_up_action", JVal.null)])) := by
  refine ⟨?_, ?_, ?_, ?_⟩
  · intro s v h
    unfold parse_llm_content_staged
    rw [show json_loadsL s.data = some v from h]
  · intro s v h1 h2
    unfold parse_llm_content_staged
    rw [show json_loadsL s.data = none from h1, h2]
  · intro s v h1 h2 h3
    unfold parse_llm_content_staged
    rw [show json_loadsL s.data = none from h1, h2, h3]
  · intro s h1 h2 h3
    unfold parse_llm_content_staged
    rw [show json_loadsL s.data = none from h1, h2, h3]
    rfl

set_option maxRecDepth 8000 in
/-- C4 witness: one concrete input per stage — a strict record, the same
record wrapped in noise, a labeled block, and plain prose — each decoding at
the claimed stage with the claimed value. -/
theorem C4_parser_stage_order_witness :
    parse_llm_content_staged exStrictInput = (ParseStage.strict, exStrictVal) ∧
    parse_llm_content_staged exWrappedInput = (ParseStage.recoveredJson, exStrictVal) ∧
    parse_llm_content_staged exLabeledInput = (ParseStage.recoveredLabeled, exLabeledVal) ∧
    parse_llm_content_staged exProseInput =
      (ParseStage.unstructured,
        JVal.obj [("reply_it",
            JVal.str ⟨pyStripL (takeBeforeFirst tagsLabel (pyStripL exProseInput.data))⟩),
          ("tags_en", JVal.arr []), ("visual_en", JVal.str ""),
          ("follow_up_action", JVal.null)]) :=
  ⟨C4_parser_stage_order.1 exStrictInput exStrictVal rfl,
   C4_parser_stage_order.2.1 exWrappedInput exStrictVal rfl rfl,
   C4_parser_stage_order.2.2.1 exLabeledInput exLabeledVal rfl rfl rfl,
   C4_parser_stage_order.2.2.2 exProseInput rfl rfl rfl⟩

/-! ### C9 (amended) — quality header uniqueness -/

/-- A comma-space seam: when the pattern contains no comma and does not start
with a space, no occurrence straddles the seam or sits on it, so counts add. -/
theorem matchCount_comma_seam (pat x rest : List Char) (hne : pat ≠ [])
    (hcomma : ',' ∉ pat) (hheads : pat.headI ≠ ' ') :
    matchCount pat (x ++ (',' :: ' ' :: rest)) = matchCount pat x + matchCount pat rest := by
  obtain ⟨q0, qs, rfl⟩ : ∃ q0 qs, pat = q0 :: qs := by
    cases pat with
    | nil => exact absurd rfl hne
    | cons a b => exact ⟨a, b, rfl⟩
  have hq0c : (q0 == ',') = false := by
    have : q0 ≠ ',' := fun h => hcomma (h ▸ List.mem_cons_self _ _)
    simpa using this
  have hq0s : (q0 == ' ') = false := by
    have : q0 ≠ ' ' := by simpa [List.headI] using hheads
    simpa using this
  have hcross : ∀ i, i < x.length → x.length < i + (q0 :: qs).length →
      startsWithL (q0 :: qs) ((x ++ (',' :: ' ' :: rest)).drop i) = false := by
    intro i hi hlen
    cases hT : startsWithL (q0 :: qs) ((x ++ (',' :: ' ' :: rest)).drop i) with
    | false => rfl
    | true =>
      exfalso
      rw [List.drop_append_of_le_length (Nat.le_of_lt hi)] at hT
      have hxlen : (x.drop i).length < (q0 :: qs).length := by
        rw [List.length_drop]
        omega
      obtain ⟨p₂, hpat, hp₂ne, hp₂b⟩ :=
        startsWithL_append_split (x.drop i) (',' :: ' ' :: rest) (q0 :: qs) hT hxlen
      cases hp₂ : p₂ with
      | nil => exact hp₂ne hp₂
      | cons c cs =>
        rw [hp₂] at hp₂b
        rw [startsWithL, Bool.and_eq_true, beq_iff_eq] at hp₂b
        have hc : c = ',' := hp₂b.1
        have : ',' ∈ (q0 :: qs) := by
          rw [hpat, hp₂]
          exact List.mem_append_right _ (by rw [hc] at *; exact List.mem_cons_self _ _)
        exact hcomma this
  rw [matchCount_append (q0 :: qs) _ _ hne hcross]
  have h1 : matchCount (q0 :: qs) (',' :: ' ' :: rest) = matchCount (q0 :: qs) rest := by
    simp [matchCount, startsWithL, hq0c, hq0s]
  rw [h1]

/-- Counting across a `", "`-join: with no comma in the pattern and no leading
space, occurrences are exactly the per-part occurrences. -/
theorem matchCount_pyJoin (pat : List Char) (hne : pat ≠ [])
    (hcomma : ',' ∉ pat) (hheads : pat.headI ≠ ' ') (ps : List String) :
    matchCount pat (pyJoin ", " ps).data =
      (ps.map (fun p => matchCount pat p.data)).sum := by
  induction ps with
  | nil =>
    show matchCount pat [] = 0
    simp [matchCount, hne]
  | cons x rest ih =>
    cases rest with
    | nil => simp [pyJoin]
    | cons y xs =>
      have hdata : (x ++ ", " ++ pyJoin ", " (y :: xs)).data =
          x.data ++ (',' :: ' ' :: (pyJoin ", " (y :: xs)).data) := by
        rw [String.data_append, String.data_append, List.append_assoc]
        rfl
      rw [show pyJoin ", " (x :: y :: xs) = x ++ ", " ++ pyJoin ", " (y :: xs) from rfl, hdata,
        matchCount_comma_seam pat _ _ hne hcomma hheads, ih]
      simp

/-- Unfolding of the positive-prompt assembly of `build_prompts`. -/
theorem build_positive_eq (base : String) (reply : LLMReply) (lt : List String) :
    build_positive base reply lt =
      pyJoin ", " ((
        (if QUALITY_CHAIN ≠ "" then [QUALITY_CHAIN] else []) ++
        (if _strip_quality_from_base base ≠ "" then [_strip_quality_from_base base] else []) ++
        (if _normalize_tags reply.tags_en ≠ [] then _normalize_tags reply.tags_en else []) ++
        (if pyStripS reply.visual_en ≠ "" then [pyStripS reply.visual_en] else []) ++
        (if lt ≠ [] then lt else [])).filter (fun p => p ≠ "")) := rfl

/-- A positive-parts segment none of whose entries contains the pattern
contributes no occurrence. -/
theorem sum_matchCount_filter_zero (pat : List Char) (l : List String)
    (h : ∀ p ∈ l, matchCount pat p.data = 0) :
    ((l.filter (fun p => p ≠ "")).map (fun p => matchCount pat p.data)).sum = 0 := by
  apply List.sum_eq_zero
  intro x hx
  rw [List.mem_map] at hx
  obtain ⟨p, hp, rfl⟩ := hx
  exact h p (List.mem_filter.mp hp).1

set_option maxRecDepth 8000 in
/-- C9 (amended): for every base description, every reply, every list of LoRA
tokens and every quality token, if the cleaned base no longer contains the
token and the reply contributes no tags, visual text, or LoRA tokens
containing it, then the positive prompt contains the token exactly once —
contributed by the always-prepended quality-tag header.  (The counterexample
shows the cleaned-base hypothesis can fail for a base that contained the
token verbatim, through splicing.) -/
theorem C9_quality_token_once (base : String) (reply : LLMReply)
    (lora_tokens : List String) (qt : String)
    (hmem : qt ∈ QUALITY_TAGS)
    (hclean : substrIn qt.data (_strip_quality_from_base base).data = false)
    (htags : ∀ t ∈ _normalize_tags reply.tags_en, substrIn qt.data t.data = false)
    (hvis : substrIn qt.data (pyStripS reply.visual_en).data = false)
    (hlora : ∀ t ∈ lora_tokens, substrIn qt.data t.data = false) :
    matchCount qt.data (build_positive base reply lora_tokens).data = 1 := by
  have hfacts : ∀ q ∈ QUALITY_TAGS,
      matchCount q.data QUALITY_CHAIN.data = 1 ∧ q.data ≠ [] ∧
      (',' ∉ q.data) ∧ q.data.headI ≠ ' ' := by decide
  obtain ⟨hcount, hne, hcomma, hheads⟩ := hfacts qt hmem
  rw [build_positive_eq, matchCount_pyJoin qt.data hne hcomma hheads]
  simp only [List.append_assoc, List.filter_append, List.map_append, List.sum_append]
  have h0 : (((if QUALITY_CHAIN ≠ "" then [QUALITY_CHAIN] else []).filter
      (fun p => p ≠ "")).map (fun p => matchCount qt.data p.data)).sum = 1 := by
    rw [if_pos (show QUALITY_CHAIN ≠ "" by decide)]
    have hf : ([QUALITY_CHAIN].filter (fun p => p ≠ "")) = [QUALITY_CHAIN] := by decide
    rw [hf]
    simpa using hcount
  have h1 : (((if _strip_quality_from_base base ≠ "" then [_strip_quality_from_base base]
      else []).filter (fun p => p ≠ "")).map (fun p => matchCount qt.data p.data)).sum = 0 := by
    apply sum_matchCount_filter_zero
    intro p hp
    by_cases hb : _strip_quality_from_base base ≠ ""
    · rw [if_pos hb, List.mem_singleton] at hp
      subst hp
      exact (matchCount_eq_zero_iff _ _).mpr hclean
    · rw [if_neg hb] at hp
      simp at hp
  have h2 : (((if _normalize_tags reply.tags_en ≠ [] then _normalize_tags reply.tags_en
      else []).filter (fun p => p ≠ "")).map (fun p => matchCount qt.data p.data)).sum = 0 := by
    apply sum_matchCount_filter_zero
    intro p hp
    by_cases ht : _normalize_tags reply.tags_en ≠ []
    · rw [if_pos ht] at hp
      exact (matchCount_eq_zero_iff _ _).mpr (htags p hp)
    · rw [if_neg ht] at hp
      simp at hp
  have h3 : (((if pyStripS reply.visual_en ≠ "" then [pyStripS reply.visual_en]
      else []).filter (fun p => p ≠ "")).map (fun p => matchCount qt.data p.data)).sum = 0 := by
    apply sum_matchCount_filter_zero
    intro p hp
    by_cases hv : pyStripS reply.visual_en ≠ ""
    · rw [if_pos hv, List.mem_singleton] at hp
      subst hp
      exact (matchCount_eq_zero_iff _ _).mpr hvis
    · rw [if_neg hv] at hp
      simp at hp
  have h4 : (((if lora_tokens ≠ [] then lora_tokens else []).filter
      (fun p => p ≠ "")).map (fun p => matchCount qt.data p.data)).sum = 0 := by
    apply sum_matchCount_filter_zero
    intro p hp
    by_cases hl : lora_tokens ≠ []
    · rw [if_pos hl] at hp
      exact (matchCount_eq_zero_iff _ _).mpr (hlora p hp)
    · rw [if_neg hl] at hp
      simp at hp
  rw [h0, h1, h2, h3, h4]
  omega

set_option maxRecDepth 4000 in
/-- C9 witness: for the base `score_9, beautiful woman`, a reply whose
normalized tags and stripped visual text do not contain `score_9`, and a
non-empty LoRA-token list that does not either, the positive prompt contains
`score_9` exactly once. -/
theorem C9_quality_token_once_witness :
    ("score_9" ∈ QUALITY_TAGS) ∧
    substrIn ("score_9").data (_strip_quality_from_base "score_9, beautiful woman").data = false ∧
    (∀ t ∈ _normalize_tags ["beautiful", " smiling "], substrIn ("score_9").data t.data = false) ∧
    substrIn ("score_9").data (pyStripS " a woman smiling ").data = false ∧
    (∀ t ∈ ["lora add_detail"], substrIn ("score_9").data t.data = false) ∧
    matchCount ("score_9").data
      (build_positive "score_9, beautiful woman"
        ⟨"", ["beautiful", " smiling "], " a woman smiling ", none⟩ ["lora add_detail"]).data = 1 :=
  ⟨by decide, by decide, by decide, by decide, by decide,
   C9_quality_token_once "score_9, beautiful woman"
     ⟨"", ["beautiful", " smiling "], " a woman smiling ", none⟩ ["lora add_detail"] "score_9"
     (by decide) (by decide) (by decide) (by decide) (by decide)⟩

/-! ### Sorting lemmas for the candidate order -/

theorem orderedInsertB_perm (le : α → α → Bool) (a : α) (l : List α) :
    (orderedInsertB le a l).Perm (a :: l) := by
  induction l with
  | nil => exact List.Perm.refl _
  | cons b t ih =>
    by_cases h : le a b
    · rw [orderedInsertB, if_pos h]
    · rw [orderedInsertB, if_neg h]
      exact (ih.cons b).trans (List.Perm.swap a b t)

theorem insertionSortB_perm (le : α → α → Bool) (l : List α) :
    (insertionSortB le l).Perm l := by
  induction l with
  | nil => exact List.Perm.refl _
  | cons a t ih => exact (orderedInsertB_perm le a _).trans (ih.cons a)

theorem orderedInsertB_pairwise (le : α → α → Bool)
    (htot : ∀ a b, (le a b || le b a) = true)
    (htrans : ∀ a b c, le a b = true → le b c = true → le a c = true)
    (a : α) (l : List α) (hl : l.Pairwise (fun x y => le x y = true)) :
    (orderedInsertB le a l).Pairwise (fun x y => le x y = true) := by
  induction l with
  | nil => simp [orderedInsertB]
  | cons b t ih =>
    rw [List.pairwise_cons] at hl
    obtain ⟨hb, ht⟩ := hl
    by_cases h : le a b
    · rw [orderedInsertB, if_pos h]
      refine List.Pairwise.cons ?_ (List.Pairwise.cons hb ht)
      intro y hy
      rcases List.mem_cons.mp hy with rfl | hy'
      · exact h
      · exact htrans a b y h (hb y hy')
    · rw [orderedInsertB, if_neg h]
      have hba : le b a = true := by
        have := htot a b
        cases hab : le a b
        · rw [hab] at this; simpa using this
        · exact absurd hab h
      refine List.Pairwise.cons ?_ (ih ht)
      intro y hy
      have hy' : y ∈ a :: t := (orderedInsertB_perm le a t).mem_iff.mp hy
      rcases List.mem_cons.mp hy' with rfl | hyt
      · exact hba
      · exact hb y hyt

theorem insertionSortB_pairwise (le : α → α → Bool)
    (htot : ∀ a b, (le a b || le b a) = true)
    (htrans : ∀ a b c, le a b = true → le b c = true → le a c = true)
    (l : List α) :
    (insertionSortB le l).Pairwise (fun x y => le x y = true) := by
  induction l with
  | nil => simp [insertionSortB]
  | cons a t ih => exact orderedInsertB_pairwise le htot htrans a _ ih

/-! ### Comparator and quota lemmas -/

theorem candKeyLE_total (text : String) (a b : LoRAEntry) :
    (candKeyLE text a b || candKeyLE text b a) = true := by
  simp only [candKeyLE, Bool.or_eq_true, decide_eq_true_eq]
  rcases Nat.lt_trichotomy (_score_entry text b) (_score_entry text a) with h | h | h
  · exact Or.inl (Or.inl h)
  · rcases le_total a.weight b.weight with hw | hw
    · exact Or.inl (Or.inr ⟨h, hw⟩)
    · exact Or.inr (Or.inr ⟨h.symm, hw⟩)
  · exact Or.inr (Or.inl h)

theorem candKeyLE_trans (text : String) (a b c : LoRAEntry)
    (h1 : candKeyLE text a b = true) (h2 : candKeyLE text b c = true) :
    candKeyLE text a c = true := by
  simp only [candKeyLE, decide_eq_true_eq] at h1 h2 ⊢
  rcases h1 with h1 | ⟨h1e, h1w⟩ <;> rcases h2 with h2 | ⟨h2e, h2w⟩
  · exact Or.inl (by omega)
  · exact Or.inl (by omega)
  · exact Or.inl (by omega)
  · exact Or.inr ⟨by omega, le_trans h1w h2w⟩

/-- The model comparator equals the comparison of the source's exact sort key
`(score, -0.0001 * weight)` under `reverse=True`: multiplying by the negative
constant reverses the weight order. -/
theorem candKeyLE_matches_python_key (text : String) (a b : LoRAEntry) :
    candKeyLE text a b = true ↔
      (_score_entry text b < _score_entry text a ∨
        (_score_entry text b = _score_entry text a ∧
          (-0.0001 : ℚ) * b.weight ≤ (-0.0001 : ℚ) * a.weight)) := by
  have h : ((-0.0001 : ℚ) * b.weight ≤ (-0.0001 : ℚ) * a.weight) ↔ a.weight ≤ b.weight := by
    constructor
    · intro hle
      nlinarith
    · intro hle
      nlinarith
  simp only [candKeyLE, decide_eq_true_eq, h]

theorem catLimitOf_pos (c : String) : 1 ≤ catLimitOf c := by
  unfold catLimitOf CATEGORY_LIMITS
  simp only [List.lookup]
  repeat' split
  all_goals simp

/-! ### Walk lemmas for `pick_loras` -/

theorem mainWalk_suffix (text : String) (m : Nat) (l : List LoRAEntry) :
    ∀ picked, ∃ q, mainWalk text m picked l = picked ++ q := by
  induction l with
  | nil => intro picked; exact ⟨[], by simp [mainWalk]⟩
  | cons e rest ih =>
    intro picked
    simp only [mainWalk]
    split_ifs with h1 h2 h3
    · exact ⟨[], by simp⟩
    · exact ih picked
    · exact ih picked
    · obtain ⟨q, hq⟩ := ih (picked ++ [e])
      exact ⟨[e] ++ q, by rw [hq, List.append_assoc]⟩

theorem mainWalk_quota (text : String) (m : Nat) (l : List LoRAEntry) :
    ∀ picked, (∀ c, countCat picked c ≤ catLimitOf c) →
      ∀ c, countCat (mainWalk text m picked l) c ≤ catLimitOf c := by
  induction l with
  | nil => intro picked h c; exact h c
  | cons e rest ih =>
    intro picked h c
    simp only [mainWalk]
    split_ifs with h1 h2 h3
    · exact h c
    · exact ih picked h c
    · exact ih picked h c
    · refine ih (picked ++ [e]) ?_ c
      intro c'
      unfold countCat
      rw [List.countP_append]
      by_cases hc : e.category = c'
      · have hcnt : List.countP (fun x => x.category == c') [e] = 1 := by
          simp [hc]
        rw [hcnt]
        rw [hc] at h3
        unfold countCat at h3
        omega
      · have hcnt : List.countP (fun x => x.category == c') [e] = 0 := by
          simp [hc]
        rw [hcnt]
        have := h c'
        unfold countCat at this
        omega

theorem mainWalk_all_zero (text : String) (m : Nat) (l : List LoRAEntry)
    (hz : ∀ e ∈ l, _score_entry text e = 0) :
    ∀ picked, mainWalk text m picked l = picked := by
  induction l with
  | nil => intro picked; rfl
  | cons e rest ih =>
    intro picked
    simp only [mainWalk]
    split_ifs with h1 h2 h3
    · rfl
    · exact ih (fun x hx => hz x (List.mem_cons_of_mem _ hx)) picked
    · exact absurd (hz e (List.mem_cons_self _ _)) h2
    · exact absurd (hz e (List.mem_cons_self _ _)) h2

theorem mainWalk_ne_nil (text : String) (m : Nat) (hm : 1 ≤ m) :
    ∀ l : List LoRAEntry, (∃ e ∈ l, 0 < _score_entry text e) →
      mainWalk text m [] l ≠ [] := by
  intro l
  induction l with
  | nil =>
    rintro ⟨e, he, _⟩
    simp at he
  | cons e rest ih =>
    rintro ⟨e', he', hpos⟩
    simp only [mainWalk]
    split_ifs with h1 h2 h3
    · simp only [List.length_nil] at h1
      omega
    · rcases List.mem_cons.mp he' with rfl | hrest
      · omega
      · exact ih ⟨e', hrest, hpos⟩
    · exfalso
      have hlim := catLimitOf_pos e.category
      unfold countCat at h3
      simp only [List.countP_nil] at h3
      omega
    · obtain ⟨q, hq⟩ := mainWalk_suffix text m rest [e]
      simp only [List.nil_append]
      rw [hq]
      simp

theorem fallbackWalk_quota (loras : List LoRAEntry) (m : Nat)
    (fb : List (String × ℚ)) :
    ∀ picked, (∀ c, countCat picked c ≤ catLimitOf c) →
      ∀ c, countCat (fallbackWalk loras m picked fb) c ≤ catLimitOf c := by
  induction fb with
  | nil => intro picked h c; exact h c
  | cons nw rest ih =>
    obtain ⟨nm, w⟩ := nw
    intro picked h c
    simp only [fallbackWalk]
    split_ifs with h1
    · exact h c
    · split
      · exact ih picked h c
      · next e heq =>
        split_ifs with h2
        · exact ih picked h c
        · refine ih (picked ++ [{ e with weight := w }]) ?_ c
          intro c'
          unfold countCat
          rw [List.countP_append]
          by_cases hc : e.category = c'
          · have hcnt : List.countP (fun x => x.category == c') [{ e with weight := w }] = 1 := by
              simp [hc]
            rw [hcnt]
            rw [hc] at h2
            unfold countCat at h2
            omega
          · have hcnt : List.countP (fun x => x.category == c') [{ e with weight := w }] = 0 := by
              simp [hc]
            rw [hcnt]
            have := h c'
            unfold countCat at this
            omega

theorem fallbackWalk_len (loras : List LoRAEntry) (m : Nat)
    (fb : List (String × ℚ)) :
    ∀ picked, picked.length ≤ m → (fallbackWalk loras m picked fb).length ≤ m := by
  induction fb with
  | nil => intro picked h; exact h
  | cons nw rest ih =>
    obtain ⟨nm, w⟩ := nw
    intro picked h
    simp only [fallbackWalk]
    split_ifs with h1
    · exact h
    · split
      · exact ih picked h
      · next e heq =>
        split_ifs with h2
        · exact ih picked h
        · refine ih (picked ++ [{ e with weight := w }]) ?_
          simp only [List.length_append, List.length_singleton]
          omega

theorem pick_loras_eq (loras : List LoRAEntry) (tags : List String) (visual : String)
    (sdxl : Bool) (maxTotal : Nat) :
    pick_loras loras tags visual sdxl maxTotal =
      (if mainWalk (_text_corpus tags visual) maxTotal []
            (sortedCandidates loras (_text_corpus tags visual) sdxl) = []
       then fallbackWalk loras maxTotal [] FALLBACKS
       else mainWalk (_text_corpus tags visual) maxTotal []
            (sortedCandidates loras (_text_corpus tags visual) sdxl)).take maxTotal := rfl

/-! ### C3 — selector invariants -/

/-- C3: for every catalog, corpus and call, `pick_loras` (1) never returns
more than the global cap, (2) never exceeds any category's quota
(`CATEGORY_LIMITS`, default 1), (3) returns a non-empty result whenever some
compatible entry scores positively and the cap is at least 1, and (4) when
every catalog entry scores 0, returns exactly the quota/cap-filtered fallback
walk over `FALLBACKS` with its override weights. -/
theorem C3_pick_loras_invariants (loras : List LoRAEntry) (tags : List String)
    (visual : String) (sdxl : Bool) (maxTotal : Nat) :
    (pick_loras loras tags visual sdxl maxTotal).length ≤ maxTotal ∧
    (∀ c, countCat (pick_loras loras tags visual sdxl maxTotal) c ≤ catLimitOf c) ∧
    (1 ≤ maxTotal →
      (∃ e ∈ loras, (e.sdxl_ok || !sdxl) = true ∧
        0 < _score_entry (_text_corpus tags visual) e) →
      pick_loras loras tags visual sdxl maxTotal ≠ []) ∧
    ((∀ e ∈ loras, _score_entry (_text_corpus tags visual) e = 0) →
      pick_loras loras tags visual sdxl maxTotal =
        fallbackWalk loras maxTotal [] FALLBACKS) := by
  refine ⟨?_, ?_, ?_, ?_⟩
  · rw [pick_loras_eq, List.length_take]
    omega
  · intro c
    rw [pick_loras_eq]
    have hquota0 : ∀ c', countCat ([] : List LoRAEntry) c' ≤ catLimitOf c' := by
      intro c'
      have := catLimitOf_pos c'
      unfold countCat
      simp only [List.countP_nil]
      omega
    refine le_trans ((List.take_sublist _ _).countP_le _) ?_
    by_cases hmain : mainWalk (_text_corpus tags visual) maxTotal []
        (sortedCandidates loras (_text_corpus tags visual) sdxl) = []
    · rw [if_pos hmain]
      exact fallbackWalk_quota loras maxTotal FALLBACKS [] hquota0 c
    · rw [if_neg hmain]
      exact mainWalk_quota (_text_corpus tags visual) maxTotal _ [] hquota0 c
  · rintro hm ⟨e, he, hcompat, hpos⟩
    rw [pick_loras_eq]
    have hmem : e ∈ sortedCandidates loras (_text_corpus tags visual) sdxl :=
      (insertionSortB_perm (candKeyLE (_text_corpus tags visual))
        (loras.filter (fun x => x.sdxl_ok || !sdxl))).mem_iff.mpr
        (List.mem_filter.mpr ⟨he, hcompat⟩)
    have hne : mainWalk (_text_corpus tags visual) maxTotal []
        (sortedCandidates loras (_text_corpus tags visual) sdxl) ≠ [] :=
      mainWalk_ne_nil (_text_corpus tags visual) maxTotal hm _ ⟨e, hmem, hpos⟩
    rw [if_neg hne]
    cases hcands : mainWalk (_text_corpus tags visual) maxTotal []
        (sortedCandidates loras (_text_corpus tags visual) sdxl) with
    | nil => exact absurd hcands hne
    | cons x xs =>
      cases maxTotal with
      | zero => omega
      | succ k => simp [List.take]
  · intro hz
    rw [pick_loras_eq]
    have hzc : ∀ e ∈ sortedCandidates loras (_text_corpus tags visual) sdxl,
        _score_entry (_text_corpus tags visual) e = 0 := by
      intro e he
      have hmem := (insertionSortB_perm _ _).mem_iff.mp he
      rw [List.mem_filter] at hmem
      exact hz e hmem.1
    rw [mainWalk_all_zero (_text_corpus tags visual) maxTotal _ hzc [], if_pos rfl]
    exact List.take_of_length_le (fallbackWalk_len loras maxTotal FALLBACKS [] (by simp))

/-- C3 witness: with the real catalog, corpus `hand`, `sdxl = true` and the
cap 3, a compatible entry (`Hand v2`) scores positively and the selection is
non-empty. -/
theorem C3_pick_loras_invariants_witness :
    (1 : Nat) ≤ 3 ∧
    (∃ e ∈ LORAS, (e.sdxl_ok || !true) = true ∧
      0 < _score_entry (_text_corpus ["hand"] "") e) ∧
    pick_loras LORAS ["hand"] "" true 3 ≠ [] :=
  ⟨by omega, by decide,
   (C3_pick_loras_invariants LORAS ["hand"] "" true 3).2.2.1 (by omega) (by decide)⟩

/-! ### C7 (amended) — the candidate order -/

/-- C7 (amended): the candidate list is sorted by keyword score descending
with equal-score ties ordered by entry weight ASCENDING, it is a permutation
of the compatibility-filtered catalog, and the comparator used is exactly the
comparison of the source's key `(score, -0.0001 * weight)` under
`reverse=True` (multiplying by the negative constant reverses the weight
order, which is what makes the ties ascending). -/
theorem C7_sort_order (loras : List LoRAEntry) (tags : List String) (visual : String)
    (sdxl : Bool) :
    (sortedCandidates loras (_text_corpus tags visual) sdxl).Pairwise (fun a b =>
      _score_entry (_text_corpus tags visual) b < _score_entry (_text_corpus tags visual) a ∨
      (_score_entry (_text_corpus tags visual) b = _score_entry (_text_corpus tags visual) a ∧
        a.weight ≤ b.weight)) ∧
    (sortedCandidates loras (_text_corpus tags visual) sdxl).Perm
      (loras.filter (fun e => e.sdxl_ok || !sdxl)) ∧
    (∀ a b : LoRAEntry, candKeyLE (_text_corpus tags visual) a b = true ↔
      (_score_entry (_text_corpus tags visual) b < _score_entry (_text_corpus tags visual) a ∨
       (_score_entry (_text_corpus tags visual) b = _score_entry (_text_corpus tags visual) a ∧
         (-0.0001 : ℚ) * b.weight ≤ (-0.0001 : ℚ) * a.weight))) := by
  refine ⟨?_, insertionSortB_perm _ _, fun a b => candKeyLE_matches_python_key _ a b⟩
  have hpw := insertionSortB_pairwise (candKeyLE (_text_corpus tags visual))
    (candKeyLE_total _) (candKeyLE_trans _)
    (loras.filter (fun e => e.sdxl_ok || !sdxl))
  refine hpw.imp ?_
  intro a b h
  simpa [candKeyLE, decide_eq_true_eq] using h

/-! ### C10 — the fallback walk -/

/-- C10: when no compatible entry matches the corpus, the fallback resolves
each `FALLBACKS` identifier against the full catalog — silently skipping
`flux_realism_lora`, which is absent — and does not re-apply the sdxl
filter: with `sdxl = true` the result contains `add_detail` (whose `sdxl_ok`
is `false`) with the override weight 0.20, followed by `detailed_notrigger`
with the override weight 0.25. -/
theorem C10_fallback_skips_missing_and_ignores_sdxl (tags : List String) (visual : String)
    (h : ∀ e ∈ LORAS, e.sdxl_ok = true → _score_entry (_text_corpus tags visual) e = 0) :
    _find_entry_by_name LORAS "flux_realism_lora" = none ∧
    pick_loras LORAS tags visual true 3 =
      [{ name := "add_detail", weight := mkRat 20 100, category := "utility",
         keywords := ["detail", "details", "high detail", "sharp", "sharpen", "clarity",
           "texture"],
         sdxl_ok := false, notes := "Non-XL variant.", triggers := ["add detail"] },
       { name := "detailed_notrigger", weight := mkRat 25 100, category := "utility",
         keywords := ["detail", "details", "micro detail", "texture", "sharp", "clarity",
           "crisp"],
         sdxl_ok := true, notes := "", triggers := ["detailed helper"] }] := by
  refine ⟨by decide, ?_⟩
  rw [pick_loras_eq]
  have hzc : ∀ e ∈ sortedCandidates LORAS (_text_corpus tags visual) true,
      _score_entry (_text_corpus tags visual) e = 0 := by
    intro e he
    have hmem := (insertionSortB_perm _ _).mem_iff.mp he
    rw [List.mem_filter] at hmem
    refine h e hmem.1 ?_
    simpa using hmem.2
  rw [mainWalk_all_zero (_text_corpus tags visual) 3 _ hzc [], if_pos rfl]
  decide

/-- C10 witness: the corpus `qqq` matches no compatible entry's keywords, so
the fallback fires exactly as claimed. -/
theorem C10_fallback_witness :
    (∀ e ∈ LORAS, e.sdxl_ok = true → _score_entry (_text_corpus ["qqq"] "") e = 0) ∧
    pick_loras LORAS ["qqq"] "" true 3 =
      [{ name := "add_detail", weight := mkRat 20 100, category := "utility",
         keywords := ["detail", "details", "high detail", "sharp", "sharpen", "clarity",
           "texture"],
         sdxl_ok := false, notes := "Non-XL variant.", triggers := ["add detail"] },
       { name := "detailed_notrigger", weight := mkRat 25 100, category := "utility",
         keywords := ["detail", "details", "micro detail", "texture", "sharp", "clarity",
           "crisp"],
         sdxl_ok := true, notes := "", triggers := ["detailed helper"] }] :=
  ⟨by decide,
   (C10_fallback_skips_missing_and_ignores_sdxl ["qqq"] "" (by decide)).2⟩
